import Mathlib

/-!
Verification development for the moon-pixelmap backend (postgres version).

The definitions below are a shallow embedding of the chain-indexer core:
the token/coordinate encoding and per-event state mutators of
`src/services/eventProcessor.js` (src/unnamed/part_001), the batch scanner
of `src/src/utils/blockProcessor.js`, and the RPC provider pool of
`src/utils/rpcProvider.js` (src/unnamed/part_003).  The relational store is
modelled as explicit lists of rows (one list per table); SQL statements are
modelled by the corresponding list transformations.  Network calls
(`contract.tokenURI`, `provider.getBlock`, `queryFilter`) are modelled as
oracles carried in an environment record, and wall-clock/jitter randomness
is likewise oracle-valued.
-/

namespace MoonPixelMap

/-! ## Token / coordinate encoding (eventProcessor.js) -/

/-- Grid width constant, `const GRID_WIDTH = 100` in eventProcessor.js. -/
def GRID_WIDTH : Nat := 100

/-- Embedding of `convertTokenIdToXY`: `x = Math.floor(tokenId / GRID_WIDTH)`,
`y = tokenId % GRID_WIDTH`. -/
def convertTokenIdToXY (tokenId : Nat) : Nat × Nat :=
  (tokenId / GRID_WIDTH, tokenId % GRID_WIDTH)

/-- Embedding of `calculateTokenId`: `x * GRID_WIDTH + y`. -/
def calculateTokenId (x y : Nat) : Nat :=
  x * GRID_WIDTH + y

/-! ## Relational data model (db.js `createTables`) -/

/-- One row of the `events` table (ChainEvent); unique on
`(transaction_hash, log_index)`. -/
structure EventRow where
  blockNumber : Nat
  transactionHash : String
  eventType : String
  args : String
  timestamp : Nat
  logIndex : Nat
deriving DecidableEq, Repr

/-- One row of the `pixel_blocks` table (Cell); unique on `(x, y)`. -/
structure CellRow where
  x : Nat
  y : Nat
  uri : String
  currentOwner : String
  timestamp : Nat
  createdAt : Nat
  updatedAt : Nat
deriving DecidableEq, Repr

/-- One row of the `pixel_block_owners` history table (OwnershipRecord). -/
structure OwnerRow where
  x : Nat
  y : Nat
  owner : String
  timestamp : Nat
  transactionHash : String
  blockNumber : Nat
deriving DecidableEq, Repr

/-- One row of the `pixel_block_uri_history` table (ContentRecord). -/
structure UriHistRow where
  x : Nat
  y : Nat
  uri : String
  owner : String
  timestamp : Nat
  transactionHash : String
  blockNumber : Nat
deriving DecidableEq, Repr

/-- One row of the `users` table (NamedIdentity); unique on `address`.
`user_name` is nullable, hence `Option String`. -/
structure UserRow where
  address : String
  userName : Option String
  createdAt : Nat
  updatedAt : Nat
deriving DecidableEq, Repr

/-- One row of the `user_name_history` table. -/
structure NameHistRow where
  userAddress : String
  userName : Option String
  timestamp : Nat
  transactionHash : String
  blockNumber : Nat
deriving DecidableEq, Repr

/-- The relational store: one list of rows per table touched by the
event-processing core. -/
structure DB where
  events : List EventRow
  pixelBlocks : List CellRow
  pixelBlockOwners : List OwnerRow
  uriHistory : List UriHistRow
  users : List UserRow
  userNameHistory : List NameHistRow
deriving DecidableEq, Repr

/-- The empty database. -/
def DB.empty : DB := ⟨[], [], [], [], [], []⟩

/-! ## Generic SQL-statement semantics on the list model -/

/-- Boolean key test for the `(x, y)` unique key of `pixel_blocks`. -/
def cellKeyIs (x y : Nat) (c : CellRow) : Bool :=
  c.x == x && c.y == y

/-- Semantics of `INSERT INTO pixel_blocks ... ON CONFLICT (x, y) DO UPDATE
SET ...`: if a row with the key exists, apply the DO-UPDATE assignment `upd`
to it, otherwise append the fresh row `ins`. -/
def upsertXY (cells : List CellRow) (x y : Nat) (ins : CellRow)
    (upd : CellRow → CellRow) : List CellRow :=
  if cells.any (cellKeyIs x y) then
    cells.map (fun c => if cellKeyIs x y c then upd c else c)
  else
    cells ++ [ins]

/-- Semantics of `UPDATE pixel_blocks SET ... WHERE pred`: apply `upd` to all
rows satisfying `pred` and also return the affected `rowCount`. -/
def updateWhere (cells : List CellRow) (pred : CellRow → Bool)
    (upd : CellRow → CellRow) : List CellRow × Nat :=
  (cells.map (fun c => if pred c then upd c else c), (cells.filter pred).length)

/-! ## Raw event model (ethers log entries after ethers-side decoding)

An ethers log entry carries `blockNumber`, `transactionHash`, `event`
(the name), `logIndex`, `args`, and the raw `topics`/`data`.  `args` uses
deferred decoding: accessing a field can throw, which `safeGetArg` converts
to `null`.  A `null` that subsequently flows into `BigNumber.from` or
`.toLowerCase()` throws inside the dispatch `try` block and is rethrown.
We model an argument that decoded as `some v` and one that is
absent/undecodable as `none`.  The event kind and its argument shape are
modelled together as one inductive (real logs always agree on the two). -/

/-- Value received for the `user` argument of a `Named` event: the code
checks `typeof user === 'string'` explicitly, so non-string shapes are
represented by `nonString`. -/
inductive NamedUserArg where
  | strVal (s : String)
  | nonString
deriving DecidableEq, Repr

/-- Value received for the `name` argument of a `Named` event: a plain
string, an `{ hash: ... }` object for an indexed string, or anything else. -/
inductive NamedNameArg where
  | strVal (s : String)
  | hashObj (hash : String)
  | badFmt
deriving DecidableEq, Repr

/-- The `name` value actually stored by the `Named` branch of
`processEventLog`: the string itself, the Keccak hash for an indexed
string, or SQL `NULL` for an unexpected shape. -/
def nameToStore : NamedNameArg → Option String
  | .strVal s => some s
  | .hashObj h => some h
  | .badFmt => none

/-- Result of the primary (named-property) decode of an `Update` event:
`owner`, `x`, `y`, `tokenURI`. -/
structure UpdatePrimary where
  owner : String
  x : Nat
  y : Nat
  tokenURI : String
deriving DecidableEq, Repr

/-- Decoded argument set of a log entry, by event kind. -/
inductive EventArgs where
  | buyArgs (buyer : String) (x y : Option Nat)
  | batchBuyArgs (buyer : String) (xs ys : List Nat)
  | transferArgs (src : Option String) (dst : String) (tokenId : Option Nat)
  | updateArgs (primary : Option UpdatePrimary)
  | ownershipArgs
  | namedArgs (user : Option NamedUserArg) (nameArg : NamedNameArg)
  | unknownArgs (name : String)
deriving DecidableEq, Repr

/-- A raw ethers log entry as consumed by `processEventsFromLastBlock` and
`processEventLog`.  `logIndex` can be `undefined` (modelled `none`), which
makes the batch loop throw.  `topics` are 256-bit words; `data` is the byte
payload — both used only by the Update raw-decode fallback. -/
structure RawEvent where
  blockNumber : Nat
  transactionHash : String
  eventName : String
  logIndex : Option Nat
  args : EventArgs
  topics : List Nat
  data : List Nat
deriving DecidableEq, Repr

/-- Identifying metadata of an event, as summarized for the batch-failure
log message (`eventBeingProcessed`). -/
structure EventMeta where
  transactionHash : String
  eventName : String
  blockNumber : Nat
  logIndex : Option Nat
deriving DecidableEq, Repr

/-- Metadata summary of an event (`transactionHash`, `event`, `blockNumber`,
`logIndex`). -/
def metaOfEvent (e : RawEvent) : EventMeta :=
  ⟨e.transactionHash, e.eventName, e.blockNumber, e.logIndex⟩

/-- Log lines emitted by the embedded code paths that the claims talk
about. -/
inductive LogEntry where
  | infoMintDetected (tokenId x y : Nat)
  | warnNoCellForTransfer (x y : Nat) (newOwner tx : String) (bn : Nat)
  | warnUpdateNoMatch (x y : Nat) (updater tx : String) (bn : Nat)
  | infoRawDecodeOk (x y : Nat)
  | errorUpdateDecodeFailed (tx : String)
  | warnStoringNameHash (tx : String)
  | errorInvalidNamedUser (tx : String)
  | infoUnhandledEvent (name : String)
  | errorQueryFailed (startB endB : Nat) (msg : String)
  | errorBatchRolledBack (startB endB : Nat) (msg : String)
      (firstEventMeta : Option EventMeta)
deriving DecidableEq, Repr

/-- Environment of oracles for everything outside the database: contract
reads, block-timestamp lookups, wall clock, the per-range event query, and
the scanner configuration.  `tokenURI t = none` models a throwing
`contract.tokenURI` call (the handlers fall back to the empty string);
`getBlockTs b = none` models a failing `provider.getBlock` (the scanner
falls back to the current wall-clock time `nowTime`). -/
structure ChainEnv where
  tokenURI : Nat → Option String
  getBlockTs : Nat → Option Nat
  nowTime : Nat
  queryEvents : Nat → Nat → Except String (List RawEvent)
  genesisBlock : Nat
  currentBlock : Nat
  batchSize : Nat

/-! ## State mutators (eventProcessor.js handlers) -/

/-- The ethers zero address, `ethers.constants.AddressZero`. -/
def zeroAddress : String := "0x0000000000000000000000000000000000000000"

/-- Embedding of JavaScript `String.prototype.toLowerCase` for the
address comparison in `handleTransferEvent` (character-list form so that it
evaluates inside the kernel). -/
def toLowerCase (s : String) : String := String.mk (s.data.map Char.toLower)

/-- Error raised by Postgres when an INSERT into `pixel_block_owners`
violates its `FOREIGN KEY (x, y) REFERENCES pixel_blocks (x, y)` (declared
in db.js `createTables`). -/
def fkOwnersMsg : String :=
  "insert into pixel_block_owners violates foreign key to pixel_blocks"

/-- Error raised by Postgres when an INSERT into `pixel_block_uri_history`
violates its `FOREIGN KEY (x, y) REFERENCES pixel_blocks (x, y)`. -/
def fkUriHistMsg : String :=
  "insert into pixel_block_uri_history violates foreign key to pixel_blocks"

/-- Semantics of `INSERT INTO pixel_block_owners ...` under the declared
foreign key: the insert succeeds only when a `pixel_blocks` row with the
referenced `(x, y)` key exists in the transaction's current state,
otherwise it raises the FK violation. -/
def insertOwnerRow (db : DB) (row : OwnerRow) : Except String DB :=
  if db.pixelBlocks.any (cellKeyIs row.x row.y) then
    .ok { db with pixelBlockOwners := db.pixelBlockOwners ++ [row] }
  else .error fkOwnersMsg

/-- Semantics of `INSERT INTO pixel_block_uri_history ...` under the
declared foreign key to `pixel_blocks (x, y)`. -/
def insertUriHistRow (db : DB) (row : UriHistRow) : Except String DB :=
  if db.pixelBlocks.any (cellKeyIs row.x row.y) then
    .ok { db with uriHistory := db.uriHistory ++ [row] }
  else .error fkUriHistMsg

/-- Embedding of `handleBuyEvent`: fetch the token URI (empty string on
fetch failure), upsert the `pixel_blocks` row overwriting
owner/uri/timestamp unconditionally, then insert a `pixel_block_owners`
history row (whose FK is satisfied by the just-upserted cell); an insert
error is rethrown. -/
def handleBuyEvent (env : ChainEnv) (db : DB) (buyer : String) (x y : Nat)
    (ts : Nat) (tx : String) (bn : Nat) : Except String DB :=
  let tokenUri := (env.tokenURI (calculateTokenId x y)).getD ""
  let cells := upsertXY db.pixelBlocks x y
    ⟨x, y, tokenUri, buyer, ts, ts, ts⟩
    (fun c => { c with currentOwner := buyer, uri := tokenUri,
                       timestamp := ts, updatedAt := ts })
  insertOwnerRow { db with pixelBlocks := cells } ⟨x, y, buyer, ts, tx, bn⟩

/-- Embedding of `handleTransferEvent`.  Mint case (`from` is the zero
address, compared lowercased): fetch the token URI (empty on failure) and
upsert the cell, with the `DO UPDATE` clause
`uri = CASE WHEN EXCLUDED.uri = '' THEN pixel_blocks.uri ELSE EXCLUDED.uri END`
preserving a stored URI when the freshly fetched one is empty.  Regular
case: `UPDATE pixel_blocks SET current_owner, timestamp WHERE x AND y`,
logging a warning when zero rows are affected (the warning itself predicts
a possible FK violation).  In both cases the handler then attempts the
`pixel_block_owners` insert, which is subject to the FK to `pixel_blocks`;
an insert error is rethrown (the emitted log lines are returned alongside
the outcome, since logging is a side channel independent of the
exception). -/
def handleTransferEvent (env : ChainEnv) (db : DB) (src dst : String)
    (tokenId : Nat) (ts : Nat) (tx : String) (bn : Nat) :
    Except String DB × List LogEntry :=
  let x := (convertTokenIdToXY tokenId).1
  let y := (convertTokenIdToXY tokenId).2
  if toLowerCase src = toLowerCase zeroAddress then
    let tokenUri := (env.tokenURI tokenId).getD ""
    let cells := upsertXY db.pixelBlocks x y
      ⟨x, y, tokenUri, dst, ts, ts, ts⟩
      (fun c => { c with currentOwner := dst,
                         uri := if tokenUri = "" then c.uri else tokenUri,
                         timestamp := ts, updatedAt := ts })
    (insertOwnerRow { db with pixelBlocks := cells } ⟨x, y, dst, ts, tx, bn⟩,
     [.infoMintDetected tokenId x y])
  else
    let updated := updateWhere db.pixelBlocks (cellKeyIs x y)
      (fun c => { c with currentOwner := dst, timestamp := ts, updatedAt := ts })
    let warn : List LogEntry :=
      if updated.2 > 0 then [] else [.warnNoCellForTransfer x y dst tx bn]
    (insertOwnerRow { db with pixelBlocks := updated.1 } ⟨x, y, dst, ts, tx, bn⟩,
     warn)

/-- Embedding of `handleUpdateEvent`: `UPDATE pixel_blocks SET uri,
timestamp WHERE x AND y AND current_owner = updater` (ownership enforced in
the WHERE clause), warn when zero rows are affected, then attempt the
`pixel_block_uri_history` insert, which is subject to the FK to
`pixel_blocks`; an insert error is rethrown. -/
def handleUpdateEvent (db : DB) (updater : String) (x y : Nat) (uri : String)
    (ts : Nat) (tx : String) (bn : Nat) : Except String DB × List LogEntry :=
  let updated := updateWhere db.pixelBlocks
    (fun c => cellKeyIs x y c && c.currentOwner == updater)
    (fun c => { c with uri := uri, timestamp := ts, updatedAt := ts })
  let warn : List LogEntry :=
    if updated.2 > 0 then [] else [.warnUpdateNoMatch x y updater tx bn]
  (insertUriHistRow { db with pixelBlocks := updated.1 }
    ⟨x, y, uri, updater, ts, tx, bn⟩, warn)

/-- Embedding of `handleNamedEvent`: upsert the `users` row
(`ON CONFLICT (address) DO UPDATE SET user_name, updated_at`) and append a
`user_name_history` row. -/
def handleNamedEvent (db : DB) (user : String) (name : Option String)
    (ts : Nat) (tx : String) (bn : Nat) : DB :=
  let users :=
    if db.users.any (fun u => u.address == user) then
      db.users.map (fun u =>
        if u.address == user then { u with userName := name, updatedAt := ts }
        else u)
    else
      db.users ++ [⟨user, name, ts, ts⟩]
  { db with
    users := users
    userNameHistory := db.userNameHistory ++ [⟨user, name, ts, tx, bn⟩] }

/-! ## ABI decoding (ethers `defaultAbiCoder` / event-log parsing)

Bytes are `Nat`s below 256 in a list; 32-byte words are read big-endian.
Addresses are represented canonically by their 160-bit numeric value (the
value ethers' `getAddress` normalization is a rendering of). -/

/-- Big-endian interpretation of a byte list as a natural number. -/
def beWord (bs : List Nat) : Nat :=
  bs.foldl (fun acc b => acc * 256 + b) 0

/-- Read the 32-byte word starting at byte offset `pos` of `data`;
fails when fewer than 32 bytes are available (the coder's bounds check). -/
def wordAt (data : List Nat) (pos : Nat) : Option Nat :=
  if pos + 32 ≤ data.length then some (beWord ((data.drop pos).take 32))
  else none

/-- Read `len` raw bytes starting at byte offset `pos` of `data`. -/
def bytesAt (data : List Nat) (pos len : Nat) : Option (List Nat) :=
  if pos + len ≤ data.length then some ((data.drop pos).take len)
  else none

/-- Byte list rendered as a string, one character per byte (the coder's
UTF-8 step restricted to the byte-per-char case). -/
def bytesToString (bs : List Nat) : String :=
  String.mk (bs.map Char.ofNat)

/-- The ABI types appearing in this contract's `Update` event. -/
inductive AbiType where
  | addressT
  | uintT
  | stringT
deriving DecidableEq, Repr

/-- Decoded ABI values. -/
inductive AbiValue where
  | addrV (a : Nat)
  | uintV (n : Nat)
  | strV (bs : List Nat)
deriving DecidableEq, Repr

/-- Decode one non-indexed value whose head word sits in slot offset
`slot`: static types read the word directly, `string` reads an offset word,
then a length word, then the raw bytes (the standard head/tail layout). -/
def decodeValueAt (data : List Nat) (slot : Nat) : AbiType → Option AbiValue
  | .addressT => do
      let w ← wordAt data slot
      if w < 2 ^ 160 then some (.addrV w) else none
  | .uintT => do
      let w ← wordAt data slot
      some (.uintV w)
  | .stringT => do
      let off ← wordAt data slot
      let len ← wordAt data off
      let bs ← bytesAt data (off + 32) len
      some (.strV bs)

/-- Decode a sequence of non-indexed types from `data`, heads starting at
byte offset `slot` and advancing 32 bytes per parameter (the generic
`defaultAbiCoder.decode` over a type list). -/
def decodeNonIndexedAux (data : List Nat) : List AbiType → Nat → Option (List AbiValue)
  | [], _ => some []
  | t :: ts, slot => do
      let v ← decodeValueAt data slot t
      let vs ← decodeNonIndexedAux data ts (slot + 32)
      some (v :: vs)

/-- Generic `defaultAbiCoder.decode(types, data)`. -/
def decodeNonIndexed (tys : List AbiType) (data : List Nat) : Option (List AbiValue) :=
  decodeNonIndexedAux data tys 0

/-- Decode one indexed parameter from its topic word.  An indexed address
is the low 160 bits of its topic (upper bytes must be clean padding);
indexed dynamic types are unsupported here (the `Update` event has none). -/
def decodeTopicValue (t : AbiType) (w : Nat) : Option AbiValue :=
  match t with
  | .addressT => if w < 2 ^ 160 then some (.addrV w) else none
  | .uintT => some (.uintV w)
  | .stringT => none

/-- Merge indexed (topic-sourced) and non-indexed (data-sourced) values
back into declaration order, consuming both lists exactly. -/
def mergeEventParams : List (AbiType × Bool) → List Nat → List AbiValue →
    Option (List AbiValue)
  | [], [], [] => some []
  | (t, true) :: ps, w :: ws, nvs => do
      let v ← decodeTopicValue t w
      let vs ← mergeEventParams ps ws nvs
      some (v :: vs)
  | (_, false) :: ps, ws, v :: nvs => do
      let vs ← mergeEventParams ps ws nvs
      some (v :: vs)
  | _, _, _ => none

/-- Generic ethers event-log decode: `topics.head` is the signature hash,
remaining topics feed the indexed parameters in order, and the non-indexed
parameters are decoded from `data` with the head/tail algorithm. -/
def decodeEventLog (params : List (AbiType × Bool)) (topics : List Nat)
    (data : List Nat) : Option (List AbiValue) :=
  match topics with
  | [] => none
  | _sig :: rest => do
      let nvs ← decodeNonIndexed
        (params.filterMap (fun p => if p.2 then none else some p.1)) data
      mergeEventParams params rest nvs

/-- ABI fragment of
`event Update(address indexed owner, uint256 x, uint256 y, string tokenURI)`. -/
def updateEventFragment : List (AbiType × Bool) :=
  [(.addressT, true), (.uintT, false), (.uintT, false), (.stringT, false)]

/-- The primary decode path of an `Update` log modelled from the raw log:
what ethers' structured event parsing (`decodeEventLog` at the Update
fragment) yields as the `(updater, x, y, uri)` tuple. -/
def primaryDecodeUpdate (topics data : List Nat) :
    Option (Nat × Nat × Nat × String) :=
  match decodeEventLog updateEventFragment topics data with
  | some [.addrV a, .uintV x, .uintV y, .strV bs] =>
      some (a, x, y, bytesToString bs)
  | _ => none

/-- The fallback raw-decode path of `processEventLog` for an `Update` log:
`updater` from `'0x' + topics[1].slice(26)` (the low 40 hex digits, i.e.
the topic word modulo 2^160), then
`defaultAbiCoder.decode(['uint256','uint256','string'], data)` unrolled at
its fixed shape: `x` at word 0, `y` at word 1, the string offset at word 2,
and at that offset a length word followed by the raw bytes. -/
def fallbackDecodeUpdate (topics data : List Nat) :
    Option (Nat × Nat × Nat × String) := do
  let t1 ← topics.get? 1
  let updater := t1 % 2 ^ 160
  let x ← wordAt data 0
  let y ← wordAt data 32
  let off ← wordAt data 64
  let len ← wordAt data off
  let bs ← bytesAt data (off + 32) len
  some (updater, x, y, bytesToString bs)

/-- Hexadecimal digit characters (lowercase rendering). -/
def hexDigitOfNat (n : Nat) : Char :=
  if n < 10 then Char.ofNat (48 + n) else Char.ofNat (87 + n)

/-- Fixed-width lowercase hex rendering of a number. -/
def natToHexWidth (w : Nat) (n : Nat) : String :=
  String.mk ((List.range w).map
    (fun i => hexDigitOfNat (n / 16 ^ (w - 1 - i) % 16)))

/-- Address rendering used when the raw-decode fallback turns the numeric
address back into the `0x`-prefixed 40-hex-digit string form passed to the
handler. -/
def natToAddrHex (a : Nat) : String :=
  "0x" ++ natToHexWidth 40 a

/-! ## Event dispatch (`processEventLog`) -/

/-- The user-address validation actually performed by the `Named` branch:
`!user || typeof user !== 'string' || !user.startsWith('0x') ||
user.length !== 42` (note: no hexadecimal-digit check).  The prefix test is
expressed on the character list (extensionally `String.startsWith`). -/
def namedUserValid : Option NamedUserArg → Bool
  | some (.strVal s) => !(s == "") && s.data.take 2 == ['0', 'x'] && s.length == 42
  | _ => false

/-- The `BatchBuy` loop: `handleBuyEvent` once per coordinate, in order,
stopping at the first thrown error. -/
def runBatchBuys (env : ChainEnv) (buyer : String) (ts : Nat) (tx : String)
    (bn : Nat) : List (Nat × Nat) → DB → Except String DB
  | [], db => .ok db
  | p :: ps, db =>
      match handleBuyEvent env db buyer p.1 p.2 ts tx bn with
      | .error m => .error m
      | .ok db1 => runBatchBuys env buyer ts tx bn ps db1

/-- Embedding of `processEventLog`: dispatch on the event kind and invoke
the matching handler.  A `null` argument flowing into `BigNumber.from` or
`.toLowerCase()` throws, modelled as `Except.error`; a handler's write
error (e.g. an FK violation) is likewise rethrown by the function's outer
catch so the enclosing batch transaction rolls back.  An `Update` event
whose primary decode failed goes through the raw-log fallback; if that
also fails the event is skipped with a log line and `ok` is returned.  An
invalid `Named` user address skips the event before any write.  Unknown
event kinds only log. -/
def processEventLog (env : ChainEnv) (e : RawEvent) (ts : Nat) (db : DB) :
    Except String (DB × List LogEntry) :=
  match e.args with
  | .buyArgs buyer ox oy =>
      match ox, oy with
      | some x, some y =>
          match handleBuyEvent env db buyer x y ts e.transactionHash e.blockNumber with
          | .ok db1 => .ok (db1, [])
          | .error m => .error m
      | _, _ => .error "BigNumber.from on null Buy coordinate"
  | .batchBuyArgs buyer xs ys =>
      if xs.length ≤ ys.length then
        match runBatchBuys env buyer ts e.transactionHash e.blockNumber (xs.zip ys) db with
        | .ok db1 => .ok (db1, [])
        | .error m => .error m
      else .error "BigNumber.from on undefined BatchBuy coordinate"
  | .transferArgs src dst otid =>
      match src, otid with
      | some from_, some tid =>
          match handleTransferEvent env db from_ dst tid ts e.transactionHash e.blockNumber with
          | (.ok db1, lg) => .ok (db1, lg)
          | (.error m, _) => .error m
      | _, _ => .error "null Transfer argument"
  | .updateArgs primary =>
      match primary with
      | some p =>
          match handleUpdateEvent db p.owner p.x p.y p.tokenURI ts
              e.transactionHash e.blockNumber with
          | (.ok db1, lg) => .ok (db1, lg)
          | (.error m, _) => .error m
      | none =>
          match fallbackDecodeUpdate e.topics e.data with
          | some (a, x, y, u) =>
              match handleUpdateEvent db (natToAddrHex a) x y u ts
                  e.transactionHash e.blockNumber with
              | (.ok db1, lg) => .ok (db1, .infoRawDecodeOk x y :: lg)
              | (.error m, _) => .error m
          | none =>
              .ok (db, [.errorUpdateDecodeFailed e.transactionHash])
  | .ownershipArgs => .ok (db, [])
  | .namedArgs user nameArg =>
      let nm := nameToStore nameArg
      let preLogs : List LogEntry :=
        match nameArg with
        | .strVal _ => []
        | .hashObj _ => [.warnStoringNameHash e.transactionHash]
        | .badFmt => [.warnStoringNameHash e.transactionHash]
      if namedUserValid user then
        match user with
        | some (.strVal s) =>
            .ok (handleNamedEvent db s nm ts e.transactionHash e.blockNumber, preLogs)
        | _ => .ok (db, preLogs ++ [.errorInvalidNamedUser e.transactionHash])
      else
        .ok (db, preLogs ++ [.errorInvalidNamedUser e.transactionHash])
  | .unknownArgs name => .ok (db, [.infoUnhandledEvent name])

/-! ## Progress tracker and batch scanner (blockProcessor.js) -/

/-- Maximum `block_number` over the `events` table (`SELECT
MAX(block_number) ...`); `none` when the table is empty (SQL `NULL`). -/
def maxBlockNumber : List EventRow → Option Nat
  | [] => none
  | r :: rs =>
      some (match maxBlockNumber rs with
            | none => r.blockNumber
            | some m => max r.blockNumber m)

/-- Embedding of `getLastProcessedBlock`: the max block number of the
persisted event log; `genesisBlock - 1` when the log is empty
(`lastBlock == null`) or when the query fails.  The function performs no
write (it is a pure query).  `queryFails` models a throwing
`pool.connect()`/`client.query`. -/
def getLastProcessedBlock (db : DB) (queryFails : Bool) (genesisBlock : Nat) : Nat :=
  if queryFails then genesisBlock - 1
  else
    match maxBlockNumber db.events with
    | none => genesisBlock - 1
    | some b => b

/-- Simple rendering of the `args` field stored on the `events` row
(`JSON.stringify(args.map(String))` in the source; the exact text is
irrelevant to the mirrored state). -/
def serializeArgs : EventArgs → String
  | .buyArgs buyer _ _ => "[Buy " ++ buyer ++ "]"
  | .batchBuyArgs buyer _ _ => "[BatchBuy " ++ buyer ++ "]"
  | .transferArgs _ dst _ => "[Transfer " ++ dst ++ "]"
  | .updateArgs _ => "[Update]"
  | .ownershipArgs => "[OwnershipTransferred]"
  | .namedArgs _ _ => "[Named]"
  | .unknownArgs name => "[" ++ name ++ "]"

/-- Embedding of the idempotent raw-event insert:
`INSERT INTO events ... ON CONFLICT (transaction_hash, log_index) DO
NOTHING`. -/
def insertEventRow (db : DB) (e : RawEvent) (li : Nat) (ts : Nat) : DB :=
  if db.events.any (fun r => r.transactionHash == e.transactionHash && r.logIndex == li) then
    db
  else
    { db with events := db.events ++
        [⟨e.blockNumber, e.transactionHash, e.eventName, serializeArgs e.args, ts, li⟩] }

/-- The timestamp resolved for an event's block: `provider.getBlock`'s
timestamp, or the current wall-clock time when that call failed. -/
def timestampFor (env : ChainEnv) (bn : Nat) : Nat :=
  (env.getBlockTs bn).getD env.nowTime

/-- One iteration of the per-event loop inside the sub-range transaction:
throw if `logIndex` is `undefined`, insert the raw `ChainEvent` row
idempotently, then run the Decoder/Mutator pipeline on the same
transaction handle. -/
def processOneEvent (env : ChainEnv) (e : RawEvent) (db : DB) :
    Except String (DB × List LogEntry) :=
  let ts := timestampFor env e.blockNumber
  match e.logIndex with
  | none => .error "logIndex is undefined for event"
  | some li => processEventLog env e ts (insertEventRow db e li ts)

/-- The body of the sub-range transaction: process the events in provider
order, threading the transaction state; the first exception aborts the
whole fold. -/
def processEventsInTx (env : ChainEnv) : List RawEvent → DB →
    Except String (DB × List LogEntry)
  | [], db => .ok (db, [])
  | e :: es, db =>
      match processOneEvent env e db with
      | .error msg => .error msg
      | .ok (db1, l1) =>
          match processEventsInTx env es db1 with
          | .error msg => .error msg
          | .ok (db2, l2) => .ok (db2, l1 ++ l2)

/-- One sub-range's `BEGIN ... COMMIT/ROLLBACK` unit: on success the
transaction state is committed; on any exception the database reverts to
its pre-transaction state and the failure is logged with the sub-range
bounds and the first event's metadata. -/
def processBatch (env : ChainEnv) (startB endB : Nat)
    (events : List RawEvent) (db : DB) : DB × List LogEntry :=
  match processEventsInTx env events db with
  | .ok (db1, logs) => (db1, logs)
  | .error msg =>
      (db, [.errorBatchRolledBack startB endB msg (events.head?.map metaOfEvent)])

/-- One sub-range of the scanner loop: query the events (on failure log and
skip the range), skip empty ranges without persistence, otherwise run the
atomic batch unit. -/
def processRange (env : ChainEnv) (db : DB) (r : Nat × Nat) : DB × List LogEntry :=
  match env.queryEvents r.1 r.2 with
  | .error msg => (db, [.errorQueryFailed r.1 r.2 msg])
  | .ok [] => (db, [])
  | .ok events => processBatch env r.1 r.2 events db

/-- Sequential processing of the sub-ranges of one scanner invocation. -/
def processScan (env : ChainEnv) (db : DB) : List (Nat × Nat) → DB × List LogEntry
  | [] => (db, [])
  | r :: rs =>
      let p := processRange env db r
      let q := processScan env p.1 rs
      (q.1, p.2 ++ q.2)

/-- Sub-range bounds of the scan loop
`for (startBlock = last+1; startBlock <= current; startBlock += batchSize)`
with `endBlock = min(startBlock + batchSize - 1, currentBlock)`; `fuel`
bounds the iteration count (the loop terminates for `batchSize ≥ 1`). -/
def mkRangesAux (currentB bs : Nat) : Nat → Nat → List (Nat × Nat)
  | 0, _ => []
  | fuel + 1, startB =>
      if startB ≤ currentB then
        (startB, min (startB + bs - 1) currentB) :: mkRangesAux currentB bs fuel (startB + bs)
      else []

/-- The scan loop's sub-range list. -/
def mkRanges (startB currentB bs : Nat) : List (Nat × Nat) :=
  mkRangesAux currentB bs (currentB + 1 - startB) startB

/-- Embedding of `processEventsFromLastBlock`: derive the resume point from
the event log, return immediately when there are no new blocks, otherwise
scan `[last+1, head]` in `batchSize` steps. -/
def processEventsFromLastBlock (env : ChainEnv) (db : DB) (queryFails : Bool) :
    DB × List LogEntry :=
  let lastB := getLastProcessedBlock db queryFails env.genesisBlock
  if env.currentBlock ≤ lastB then (db, [])
  else processScan env db (mkRanges (lastB + 1) env.currentBlock env.batchSize)

/-! ## RPC provider pool (rpcProvider.js)

The pool's process-local cursor is `{ currentProviderIndex,
lastProviderSwitch }`; we additionally thread the wall clock `now`
(`Date.now()`), which advances only across the backoff sleeps.  RPC call
outcomes and the jittered sleep durations (`getRetryDelay` uses
`Math.random`) are oracles indexed by the running `totalAttempts`
counter. -/

/-- Retry policy constant `MAX_RETRIES = 3`. -/
def MAX_RETRIES : Nat := 3

/-- Cooldown constant `MIN_SWITCH_INTERVAL = 60000` (milliseconds). -/
def MIN_SWITCH_INTERVAL : Nat := 60000

/-- Process-local provider-pool state plus the wall clock. -/
structure PoolState where
  currentProviderIndex : Nat
  lastProviderSwitch : Nat
  now : Nat
deriving DecidableEq, Repr

/-- Outcome of one attempted RPC call: success, a provider-class error
(rate limit / connection / capacity, per `isProviderError`), or any other
error. -/
inductive RpcOutcome where
  | ok (v : Nat)
  | err (isProviderClass : Bool) (e : Nat)
deriving DecidableEq, Repr

/-- Oracles for the pool: the outcome of the `i`-th call made
(zero-based, by `totalAttempts`) and the jittered backoff duration slept
after the `i`-th call. -/
structure RpcEnv where
  outcome : Nat → RpcOutcome
  sleepDelay : Nat → Nat

/-- Embedding of `switchToNextProvider` over `n` endpoints: refuse
(returning `false`, state unchanged) when fewer than
`MIN_SWITCH_INTERVAL` ms have elapsed since the last switch; otherwise
advance the index cyclically and record the switch time. -/
def switchToNextProvider (n : Nat) (st : PoolState) : Bool × PoolState :=
  if st.now - st.lastProviderSwitch < MIN_SWITCH_INTERVAL then (false, st)
  else
    (true,
     { st with currentProviderIndex := (st.currentProviderIndex + 1) % n,
               lastProviderSwitch := st.now })

/-- Result of the inner `for (attempt = 0; attempt < MAX_RETRIES; ...)`
loop: an early `return result`, an immediate `throw` of a
non-provider-class error, or falling back to the outer `while` (after a
switch attempt, successful or refused). -/
inductive InnerRes where
  | returned (v : Nat) (st : PoolState) (total : Nat)
  | thrown (e : Nat) (st : PoolState) (total : Nat)
  | continueOuter (st : PoolState) (total : Nat) (lastError : Option Nat)
deriving DecidableEq, Repr

/-- The inner retry loop of `executeWithRetry`, with `remaining` retries
left on the current endpoint.  A provider-class failure with retries left
sleeps the jittered backoff and retries; on the last retry it attempts a
provider switch and falls back to the outer loop either way; a
non-provider-class failure is thrown immediately. -/
def innerLoop (env : RpcEnv) (n : Nat) : Nat → PoolState → Nat → Option Nat → InnerRes
  | 0, st, total, lastError => .continueOuter st total lastError
  | remaining + 1, st, total, _ =>
      match env.outcome total with
      | .ok v => .returned v st (total + 1)
      | .err isProv e =>
          if isProv then
            match remaining with
            | r + 1 =>
                innerLoop env n (r + 1)
                  { st with now := st.now + env.sleepDelay total } (total + 1) (some e)
            | 0 =>
                let sw := switchToNextProvider n st
                .continueOuter sw.2 (total + 1) (some e)
          else .thrown e st (total + 1)

/-- Final result of `executeWithRetry`: the value returned, or the error
raised (either thrown mid-loop or the last error after exhaustion),
together with the final pool state and total attempts consumed. -/
inductive RpcResult where
  | success (v : Nat) (st : PoolState) (total : Nat)
  | failure (lastError : Option Nat) (st : PoolState) (total : Nat)
deriving DecidableEq, Repr

/-- The outer `while (totalAttempts < maxTotalAttempts)` loop of
`executeWithRetry`; `fuel` bounds the iterations (each inner pass consumes
at least one attempt since `MAX_RETRIES = 3 > 0`). -/
def outerLoop (env : RpcEnv) (n : Nat) : Nat → PoolState → Nat → Option Nat → RpcResult
  | 0, st, total, lastError => .failure lastError st total
  | fuel + 1, st, total, lastError =>
      if total < MAX_RETRIES * n then
        match innerLoop env n MAX_RETRIES st total lastError with
        | .returned v st1 t1 => .success v st1 t1
        | .thrown e st1 t1 => .failure (some e) st1 t1
        | .continueOuter st1 t1 le => outerLoop env n fuel st1 t1 le
      else .failure lastError st total

/-- Embedding of `executeWithRetry` over `n` endpoints, starting with
`totalAttempts = 0` and `lastError = null`. -/
def executeWithRetry (env : RpcEnv) (n : Nat) (st : PoolState) : RpcResult :=
  outerLoop env n (MAX_RETRIES * n + 1) st 0 none

/-! ## Spec-side predicates -/

/-- Hexadecimal digit test for one character. -/
def isHexDigitChar (c : Char) : Bool :=
  c.isDigit || ('a' ≤ c && c ≤ 'f') || ('A' ≤ c && c ≤ 'F')

/-- The strict address shape claimed by the specification for `Named`
events: `0x` followed by exactly 40 hexadecimal digits.  (Spec-side
predicate, for comparison against the code's weaker check.) -/
def strictHexAddress (s : String) : Bool :=
  s.data.take 2 == ['0', 'x'] && s.length == 42 && (s.data.drop 2).all isHexDigitChar

/-! # Theorems -/

/-! ## C10: tokenId / coordinate round trip -/

/-- C10: the tokenId encoding used by the mutators is `x * 100 + y`, and
for every grid coordinate `0 ≤ x ≤ 99`, `0 ≤ y ≤ 99`,
`convertTokenIdToXY (calculateTokenId x y) = (x, y)`, so a Buy at `(x,y)`
and a Transfer carrying tokenId `x*100+y` address the same Cell. -/
theorem c10_tokenId_roundtrip (x y : Nat) (hx : x ≤ 99) (hy : y ≤ 99) :
    calculateTokenId x y = x * 100 + y ∧
    convertTokenIdToXY (calculateTokenId x y) = (x, y) := by
  refine ⟨rfl, ?_⟩
  simp only [convertTokenIdToXY, calculateTokenId, GRID_WIDTH, Prod.mk.injEq]
  omega

/-- Witness for C10 at the concrete coordinate (5, 10). -/
theorem c10_witness :
    calculateTokenId 5 10 = 5 * 100 + 10 ∧
    convertTokenIdToXY (calculateTokenId 5 10) = (5, 10) :=
  c10_tokenId_roundtrip 5 10 (by decide) (by decide)

/-! ## C9: resume point derivation -/

/-- The table maximum is `none` exactly on the empty table. -/
theorem maxBlockNumber_eq_none_iff (es : List EventRow) :
    maxBlockNumber es = none ↔ es = [] := by
  cases es <;> simp [maxBlockNumber]

/-- On a nonempty table, `maxBlockNumber` returns an attained upper bound
of the `blockNumber` column. -/
theorem maxBlockNumber_isMax (es : List EventRow) (hne : es ≠ []) :
    ∃ m, maxBlockNumber es = some m ∧ (∀ r ∈ es, r.blockNumber ≤ m) ∧
      m ∈ es.map (fun r => r.blockNumber) := by
  induction es with
  | nil => exact absurd rfl hne
  | cons r rs ih =>
    cases hrs : maxBlockNumber rs with
    | none =>
      have : rs = [] := (maxBlockNumber_eq_none_iff rs).mp hrs
      subst this
      exact ⟨r.blockNumber, by simp [maxBlockNumber], by simp, by simp⟩
    | some m =>
      have hrsne : rs ≠ [] := by
        intro h; subst h; simp [maxBlockNumber] at hrs
      obtain ⟨m', hm', hub, hmem⟩ := ih hrsne
      rw [hrs] at hm'
      obtain rfl : m = m' := by injection hm'
      refine ⟨max r.blockNumber m, by simp [maxBlockNumber, hrs], ?_, ?_⟩
      · intro s hs
        rcases List.mem_cons.mp hs with h | h
        · subst h; exact Nat.le_max_left _ _
        · exact le_trans (hub s h) (Nat.le_max_right _ _)
      · rcases Nat.le_total r.blockNumber m with h | h
        · rw [Nat.max_eq_right h]
          simp only [List.map_cons]
          exact List.mem_cons_of_mem _ hmem
        · rw [Nat.max_eq_left h]
          simp

/-- C9: `getLastProcessedBlock` returns the maximum persisted
`blockNumber` when at least one event row exists, and `genesisBlock - 1`
both on an empty event log and on a failed query (for
`genesisBlock = 1954820` that is `1954819`); being a pure query it
performs no write. -/
theorem c9_resume_block (db : DB) (g : Nat) :
    (db.events ≠ [] → ∃ m, maxBlockNumber db.events = some m ∧
        getLastProcessedBlock db false g = m ∧
        (∀ r ∈ db.events, r.blockNumber ≤ m) ∧
        m ∈ db.events.map (fun r => r.blockNumber)) ∧
    (db.events = [] → getLastProcessedBlock db false g = g - 1) ∧
    getLastProcessedBlock db true g = g - 1 ∧
    (db.events = [] → getLastProcessedBlock db false 1954820 = 1954819) := by
  refine ⟨?_, ?_, ?_, ?_⟩
  · intro hne
    obtain ⟨m, hm, hub, hmem⟩ := maxBlockNumber_isMax db.events hne
    exact ⟨m, hm, by simp [getLastProcessedBlock, hm], hub, hmem⟩
  · intro h
    simp [getLastProcessedBlock, (maxBlockNumber_eq_none_iff db.events).mpr h]
  · simp [getLastProcessedBlock]
  · intro h
    simp [getLastProcessedBlock, (maxBlockNumber_eq_none_iff db.events).mpr h]

/-- A two-row event log used to exercise the resume-point query. -/
def dbC9 : DB :=
  { DB.empty with events :=
      [⟨2000000, "0xabc", "Buy", "[]", 5, 0⟩, ⟨1999999, "0xdef", "Buy", "[]", 5, 1⟩] }

/-- Witness for C9: the nonempty-log, empty-log and failed-query cases at
`genesisBlock = 1954820`. -/
theorem c9_witness :
    getLastProcessedBlock dbC9 false 1954820 = 2000000 ∧
    getLastProcessedBlock DB.empty false 1954820 = 1954819 ∧
    getLastProcessedBlock DB.empty true 1954820 = 1954819 := by
  refine ⟨?_, (c9_resume_block DB.empty 1954820).2.1 rfl,
    (c9_resume_block DB.empty 1954820).2.2.1⟩
  obtain ⟨m, hm, hg, -, -⟩ := (c9_resume_block dbC9 1954820).1 (by decide)
  have h2 : maxBlockNumber dbC9.events = some 2000000 := by decide
  rw [h2] at hm
  injection hm with hm'
  omega

/-! ## C3: refused provider rotation -/

/-- An RPC oracle with provider-class failures on the first three calls
and a success on the fourth. -/
def envC3 : RpcEnv :=
  { outcome := fun i => if i == 3 then .ok 42 else .err true i
    sleepDelay := fun _ => 750 }

/-- C3 counterexample: with five endpoints, retries on the active endpoint
exhausted (three provider-class failures) and the rotation refused because
only 1500 ms elapsed since the last switch, `executeWithRetry` does NOT
fail: the outer loop makes a fourth attempt on the same endpoint, which
succeeds.  This contradicts the claim that after a refused rotation the
operation fails without further attempts. -/
theorem c3_counterexample :
    (switchToNextProvider 5 ⟨0, 1000, 2500⟩).1 = false ∧
    executeWithRetry envC3 5 ⟨0, 1000, 1000⟩ = .success 42 ⟨0, 1000, 2500⟩ 4 := by
  exact ⟨rfl, rfl⟩

/-- C3 amended: when retries on the active endpoint are exhausted within
the cooldown window, the rotation is silently refused (index and switch
time unchanged) but the operation does not fail yet — the outer loop keeps
retrying on the same endpoint, and only after `MAX_RETRIES * N` total
attempts is the last error raised to the caller.  Stated for the 5-endpoint
pool under an all-provider-error schedule with zero-length sleeps (so the
cooldown never elapses): the result is failure with the error of attempt
14 (the 15th and last), the full 15-attempt budget is consumed, and the
pool state (in particular the active index) is unchanged. -/
theorem c3_refusal_keeps_retrying (env : RpcEnv) (st : PoolState) (e : Nat → Nat)
    (hout : ∀ i, env.outcome i = .err true (e i))
    (hdel : ∀ i, env.sleepDelay i = 0)
    (hcool : st.now = st.lastProviderSwitch) :
    executeWithRetry env 5 st = .failure (some (e 14)) st 15 := by
  have hsw : switchToNextProvider 5 st = (false, st) := by
    simp [switchToNextProvider, hcool, MIN_SWITCH_INTERVAL]
  have hst : ∀ i : Nat, { st with now := st.now + env.sleepDelay i } = st := by
    intro i; simp [hdel]
  simp only [executeWithRetry, outerLoop, innerLoop, MAX_RETRIES, hout, hdel, hst,
    hsw, Nat.add_zero]
  norm_num [outerLoop, innerLoop, hout, hst, hsw]

/-- An RPC oracle where every call fails with a provider-class error and
sleeps are zero-length. -/
def envC3w : RpcEnv :=
  { outcome := fun i => .err true i, sleepDelay := fun _ => 0 }

/-- Witness for C3's amended claim at a concrete all-failing oracle and
pool state. -/
theorem c3_witness :
    executeWithRetry envC3w 5 ⟨2, 500, 500⟩ = .failure (some 14) ⟨2, 500, 500⟩ 15 :=
  c3_refusal_keeps_retrying envC3w ⟨2, 500, 500⟩ (fun i => i)
    (fun _ => rfl) (fun _ => rfl) rfl

/-! ## List helper lemmas for the SQL semantics -/

/-- Finding under a guarded map: if the update function preserves the
predicate, the first match of the mapped list is the updated first match
of the original list. -/
theorem find?_map_guarded {α : Type} (p : α → Bool) (f : α → α)
    (hpres : ∀ a, p (f a) = p a) (l : List α) (a : α)
    (h : l.find? p = some a) :
    (l.map (fun x => if p x then f x else x)).find? p = some (f a) := by
  induction l with
  | nil => simp at h
  | cons b bs ih =>
    simp only [List.map_cons]
    by_cases hpb : p b = true
    · rw [List.find?_cons_of_pos _ hpb] at h
      injection h with h
      subst h
      rw [if_pos hpb]
      exact List.find?_cons_of_pos _ (by rw [hpres]; exact hpb)
    · rw [List.find?_cons_of_neg _ hpb] at h
      rw [if_neg hpb, List.find?_cons_of_neg _ hpb]
      exact ih h

/-- A guarded map over a list on which the predicate never holds is the
identity. -/
theorem map_guarded_of_none {α : Type} (p : α → Bool) (f : α → α)
    (l : List α) (h : ∀ a ∈ l, p a = false) :
    l.map (fun x => if p x then f x else x) = l := by
  induction l with
  | nil => rfl
  | cons b bs ih =>
    simp only [List.map_cons, h b (List.mem_cons_self b bs),
      if_neg Bool.false_ne_true]
    rw [ih (fun a ha => h a (List.mem_cons_of_mem b ha))]

/-- Guarded mapping preserves `any` when the update preserves the guard. -/
theorem any_map_guarded {α : Type} (p q : α → Bool) (f : α → α)
    (hpres : ∀ a, q (f a) = q a) (l : List α) :
    (l.map (fun x => if p x then f x else x)).any q = l.any q := by
  induction l with
  | nil => rfl
  | cons b bs ih =>
    simp only [List.map_cons, List.any_cons, ih]
    by_cases hb : p b = true
    · rw [if_pos hb, hpres]
    · rw [if_neg hb]

/-! ## FK-aware insert helper lemmas -/

/-- The `pixel_block_owners` insert succeeds exactly when the referenced
cell exists. -/
theorem insertOwnerRow_ok (db : DB) (row : OwnerRow)
    (h : db.pixelBlocks.any (cellKeyIs row.x row.y) = true) :
    insertOwnerRow db row =
      .ok { db with pixelBlockOwners := db.pixelBlockOwners ++ [row] } := by
  rw [insertOwnerRow, if_pos h]

/-- The `pixel_block_owners` insert raises the FK violation when the
referenced cell is missing. -/
theorem insertOwnerRow_fk (db : DB) (row : OwnerRow)
    (h : db.pixelBlocks.any (cellKeyIs row.x row.y) = false) :
    insertOwnerRow db row = .error fkOwnersMsg := by
  rw [insertOwnerRow, if_neg (by simp [h])]

/-- The `pixel_block_uri_history` insert succeeds exactly when the
referenced cell exists. -/
theorem insertUriHistRow_ok (db : DB) (row : UriHistRow)
    (h : db.pixelBlocks.any (cellKeyIs row.x row.y) = true) :
    insertUriHistRow db row =
      .ok { db with uriHistory := db.uriHistory ++ [row] } := by
  rw [insertUriHistRow, if_pos h]

/-- The `pixel_block_uri_history` insert raises the FK violation when the
referenced cell is missing. -/
theorem insertUriHistRow_fk (db : DB) (row : UriHistRow)
    (h : db.pixelBlocks.any (cellKeyIs row.x row.y) = false) :
    insertUriHistRow db row = .error fkUriHistMsg := by
  rw [insertUriHistRow, if_neg (by simp [h])]

/-! ## C2: mint-case Transfer preserves a non-empty stored URI -/

/-- C2: for a Transfer whose `from` is the zero address (mint case), with
an existing `pixel_blocks` row at the event's coordinate, the handler
always succeeds (its own upsert satisfies the ownership insert's FK) and
never blanks a non-empty stored URI: the resulting row keeps the stored
URI when the freshly fetched one is empty and takes the fetched URI
otherwise, and an ownership-history row is appended. -/
theorem c2_mint_preserves_uri (env : ChainEnv) (db : DB) (src dst : String)
    (tokenId ts bn : Nat) (tx : String) (c : CellRow)
    (hmint : toLowerCase src = toLowerCase zeroAddress)
    (hc : db.pixelBlocks.find?
        (cellKeyIs (convertTokenIdToXY tokenId).1 (convertTokenIdToXY tokenId).2) = some c) :
    ∃ db', handleTransferEvent env db src dst tokenId ts tx bn =
        (.ok db', [.infoMintDetected tokenId
          (convertTokenIdToXY tokenId).1 (convertTokenIdToXY tokenId).2]) ∧
      db'.pixelBlocks.find?
          (cellKeyIs (convertTokenIdToXY tokenId).1 (convertTokenIdToXY tokenId).2) =
        some { c with currentOwner := dst,
                      uri := if (env.tokenURI tokenId).getD "" = "" then c.uri
                             else (env.tokenURI tokenId).getD "",
                      timestamp := ts, updatedAt := ts } ∧
      (c.uri ≠ "" →
        (if (env.tokenURI tokenId).getD "" = "" then c.uri
         else (env.tokenURI tokenId).getD "") ≠ "") ∧
      db'.pixelBlockOwners = db.pixelBlockOwners ++
        [⟨(convertTokenIdToXY tokenId).1, (convertTokenIdToXY tokenId).2, dst, ts, tx, bn⟩] := by
  have hany : db.pixelBlocks.any
      (cellKeyIs (convertTokenIdToXY tokenId).1 (convertTokenIdToXY tokenId).2) = true :=
    List.any_eq_true.mpr
      ⟨c, List.mem_of_find?_eq_some hc, List.find?_some hc⟩
  have hmapany : (db.pixelBlocks.map (fun c =>
      if cellKeyIs (convertTokenIdToXY tokenId).1 (convertTokenIdToXY tokenId).2 c then
        { c with currentOwner := dst,
                 uri := if (env.tokenURI tokenId).getD "" = "" then c.uri
                        else (env.tokenURI tokenId).getD "",
                 timestamp := ts, updatedAt := ts }
      else c)).any
      (cellKeyIs (convertTokenIdToXY tokenId).1 (convertTokenIdToXY tokenId).2) = true := by
    rw [any_map_guarded]
    · exact hany
    · intro a; rfl
  refine ⟨{ db with
      pixelBlocks := db.pixelBlocks.map (fun c =>
        if cellKeyIs (convertTokenIdToXY tokenId).1 (convertTokenIdToXY tokenId).2 c then
          { c with currentOwner := dst,
                   uri := if (env.tokenURI tokenId).getD "" = "" then c.uri
                          else (env.tokenURI tokenId).getD "",
                   timestamp := ts, updatedAt := ts }
        else c)
      pixelBlockOwners := db.pixelBlockOwners ++
        [⟨(convertTokenIdToXY tokenId).1, (convertTokenIdToXY tokenId).2, dst, ts, tx, bn⟩] },
    ?_, ?_, ?_, ?_⟩
  · simp only [handleTransferEvent, upsertXY, if_pos hmint, hany, if_true]
    rw [insertOwnerRow_ok _ _ hmapany]
  · exact find?_map_guarded _ _ (fun a => by simp [cellKeyIs]) _ _ hc
  · intro hne
    split
    · exact hne
    · assumption
  · rfl

/-- Database with one stored cell at (0, 5) carrying a non-empty URI. -/
def dbC2 : DB :=
  { DB.empty with pixelBlocks := [⟨0, 5, "keep", "0xold", 1, 1, 1⟩] }

/-- Shared concrete oracle environment whose `tokenURI` read returns the empty string. -/
def envStub : ChainEnv :=
  { tokenURI := fun _ => some ""
    getBlockTs := fun _ => none
    nowTime := 0
    queryEvents := fun _ _ => .ok []
    genesisBlock := 1954820
    currentBlock := 0
    batchSize := 10 }

/-- Witness for C2: a mint Transfer of tokenId 5 (coordinate (0,5)) whose
fetched URI is empty succeeds, keeps the stored URI "keep", and appends
the ownership row. -/
theorem c2_witness :
    ∃ db', handleTransferEvent envStub dbC2 zeroAddress "0xB" 5 9 "tx" 77 =
        (.ok db', [.infoMintDetected 5 0 5]) ∧
      db'.pixelBlocks.find? (cellKeyIs 0 5) = some ⟨0, 5, "keep", "0xB", 9, 1, 9⟩ ∧
      (("keep" : String) ≠ "" → ("keep" : String) ≠ "") ∧
      db'.pixelBlockOwners = dbC2.pixelBlockOwners ++ [⟨0, 5, "0xB", 9, "tx", 77⟩] :=
  c2_mint_preserves_uri envStub dbC2 zeroAddress "0xB" 5 9 77 "tx"
    ⟨0, 5, "keep", "0xold", 1, 1, 1⟩ rfl (by decide)

/-! ## C6: content Update guarded by ownership; FK on the history insert -/

/-- A concrete Update event targeting a coordinate with no Cell row. -/
def evC6bad : RawEvent :=
  ⟨7, "tx", "Update", some 0, .updateArgs (some ⟨"0xb", 1, 2, "u2"⟩), [], []⟩

/-- C6 counterexample: an Update event targeting a coordinate with no
`pixel_blocks` row.  Zero rows are affected, but the handler does NOT
continue without raising, and no ContentRecord is appended: the
unconditional `pixel_block_uri_history` insert violates its
`FOREIGN KEY (x, y) REFERENCES pixel_blocks` and the handler (and the
dispatcher) rethrow the error.  This refutes the claim's missing-Cell
case. -/
theorem c6_counterexample :
    handleUpdateEvent DB.empty "0xb" 1 2 "u2" 9 "tx" 7 =
      (.error fkUriHistMsg, [.warnUpdateNoMatch 1 2 "0xb" "tx" 7]) ∧
    processEventLog envStub evC6bad 9 DB.empty = .error fkUriHistMsg := by
  exact ⟨rfl, rfl⟩

/-- C6 amended: the live cell's uri/timestamp are modified only where the
stored `current_owner` equals the updater (the UPDATE's WHERE clause);
with zero affected rows the UPDATE step logs a warning; in the
ownership-mismatch case (the Cell exists under another owner) the handler
continues without raising and still appends the ContentRecord; but when no
Cell row exists at `(x, y)`, the unconditional history insert violates the
FK to `pixel_blocks`, raises, and the handler rethrows. -/
theorem c6_update_owner_guard (db : DB) (updater : String) (x y : Nat)
    (uri : String) (ts bn : Nat) (tx : String) (out : Except String DB)
    (logs : List LogEntry)
    (hrun : handleUpdateEvent db updater x y uri ts tx bn = (out, logs)) :
    (∀ db', out = .ok db' →
        (∀ c' ∈ db'.pixelBlocks, c' ∉ db.pixelBlocks →
            ∃ c ∈ db.pixelBlocks, c.x = x ∧ c.y = y ∧ c.currentOwner = updater ∧
              c' = { c with uri := uri, timestamp := ts, updatedAt := ts }) ∧
        (∀ c ∈ db.pixelBlocks, c.x = x → c.y = y → c.currentOwner = updater →
            { c with uri := uri, timestamp := ts, updatedAt := ts } ∈ db'.pixelBlocks) ∧
        db'.uriHistory = db.uriHistory ++ [⟨x, y, uri, updater, ts, tx, bn⟩]) ∧
    ((db.pixelBlocks.filter
        (fun c => cellKeyIs x y c && c.currentOwner == updater)).length = 0 →
      logs = [.warnUpdateNoMatch x y updater tx bn]) ∧
    (db.pixelBlocks.any (cellKeyIs x y) = true →
      (db.pixelBlocks.filter
        (fun c => cellKeyIs x y c && c.currentOwner == updater)).length = 0 →
      out = .ok { db with uriHistory := db.uriHistory ++ [⟨x, y, uri, updater, ts, tx, bn⟩] }) ∧
    (db.pixelBlocks.any (cellKeyIs x y) = false → out = .error fkUriHistMsg) := by
  simp only [handleUpdateEvent, updateWhere] at hrun
  injection hrun with h1 h2
  have hkeyany : ∀ b : Bool, db.pixelBlocks.any (cellKeyIs x y) = b →
      ((db.pixelBlocks.map (fun c =>
        if cellKeyIs x y c && c.currentOwner == updater then
          { c with uri := uri, timestamp := ts, updatedAt := ts } else c)).any
        (cellKeyIs x y)) = b := by
    intro b hb
    rw [any_map_guarded]
    · exact hb
    · intro a; rfl
  refine ⟨?_, ?_, ?_, ?_⟩
  · intro db' hout
    rw [hout] at h1
    rw [insertUriHistRow] at h1
    split at h1
    · injection h1 with h1
      refine ⟨?_, ?_, ?_⟩
      · intro c' hc' hnotin
        rw [← h1] at hc'
        obtain ⟨c, hcmem, hceq⟩ := List.mem_map.mp hc'
        by_cases hp : (cellKeyIs x y c && c.currentOwner == updater) = true
        · have hkey := hp
          simp only [cellKeyIs, Bool.and_eq_true, beq_iff_eq] at hkey
          exact ⟨c, hcmem, hkey.1.1, hkey.1.2, hkey.2, by rw [← hceq, if_pos hp]⟩
        · exfalso
          apply hnotin
          rw [← hceq, if_neg hp]
          exact hcmem
      · intro c hcmem hcx hcy hco
        have hp : (cellKeyIs x y c && c.currentOwner == updater) = true := by
          simp [cellKeyIs, hcx, hcy, hco]
        rw [← h1]
        exact List.mem_map.mpr ⟨c, hcmem, by rw [if_pos hp]⟩
      · rw [← h1]
    · exact absurd h1 (by simp)
  · intro hzero
    rw [← h2, List.length_eq_zero.mp hzero]
    rfl
  · intro hkey hzero
    have hnone : ∀ c ∈ db.pixelBlocks,
        (cellKeyIs x y c && c.currentOwner == updater) = false := by
      intro c hcmem
      by_contra hcc
      have hcf : c ∈ db.pixelBlocks.filter
          (fun c => cellKeyIs x y c && c.currentOwner == updater) :=
        List.mem_filter.mpr ⟨hcmem, by simpa using hcc⟩
      rw [List.length_eq_zero.mp hzero] at hcf
      cases hcf
    rw [← h1, insertUriHistRow, if_pos (hkeyany true hkey)]
    rw [map_guarded_of_none _ _ _ hnone]
  · intro hkey
    rw [← h1]
    apply insertUriHistRow_fk
    exact hkeyany false hkey

/-- Database with one stored cell at (1, 2) owned by `0xa`. -/
def dbC6 : DB :=
  { DB.empty with pixelBlocks := [⟨1, 2, "u1", "0xa", 1, 1, 1⟩] }

/-- Witness for C6's amended claim: an Update from non-owner `0xb` on the
existing cell (1,2) affects zero rows, logs the warning, continues without
raising, leaves the cell untouched, and still appends the history row. -/
theorem c6_witness :
    (handleUpdateEvent dbC6 "0xb" 1 2 "u2" 9 "tx" 7).2 =
      [.warnUpdateNoMatch 1 2 "0xb" "tx" 7] ∧
    (handleUpdateEvent dbC6 "0xb" 1 2 "u2" 9 "tx" 7).1 =
      .ok { dbC6 with uriHistory := dbC6.uriHistory ++ [⟨1, 2, "u2", "0xb", 9, "tx", 7⟩] } := by
  have h := c6_update_owner_guard dbC6 "0xb" 1 2 "u2" 9 7 "tx"
    (handleUpdateEvent dbC6 "0xb" 1 2 "u2" 9 "tx" 7).1
    (handleUpdateEvent dbC6 "0xb" 1 2 "u2" 9 "tx" 7).2 rfl
  exact ⟨h.2.1 (by decide), h.2.2.1 (by decide) (by decide)⟩

/-! ## C7: regular Transfer to a missing cell -/

/-- C7: a regular (non-mint) Transfer targeting a coordinate with no
existing cell: the owner UPDATE affects zero rows (leaving the cells
unchanged), the handler logs a warning and does not abort at the UPDATE
step, and it still attempts to append the `pixel_block_owners` row for
`(x, y)` — its outcome is exactly that insert on the post-UPDATE state;
with the Cell missing, the attempted insert raises the FK violation, which
the handler and the dispatcher rethrow. -/
theorem c7_transfer_missing_cell (env : ChainEnv) (db : DB) (e : RawEvent)
    (src dst : String) (tokenId ts bn : Nat) (tx : String)
    (out : Except String DB) (logs : List LogEntry)
    (hreg : toLowerCase src ≠ toLowerCase zeroAddress)
    (hmiss : ∀ c ∈ db.pixelBlocks,
      cellKeyIs (convertTokenIdToXY tokenId).1 (convertTokenIdToXY tokenId).2 c = false)
    (hrun : handleTransferEvent env db src dst tokenId ts tx bn = (out, logs))
    (hargs : e.args = .transferArgs (some src) dst (some tokenId)) :
    (updateWhere db.pixelBlocks
        (cellKeyIs (convertTokenIdToXY tokenId).1 (convertTokenIdToXY tokenId).2)
        (fun c => { c with currentOwner := dst, timestamp := ts, updatedAt := ts })).2 = 0 ∧
    (updateWhere db.pixelBlocks
        (cellKeyIs (convertTokenIdToXY tokenId).1 (convertTokenIdToXY tokenId).2)
        (fun c => { c with currentOwner := dst, timestamp := ts, updatedAt := ts })).1 =
      db.pixelBlocks ∧
    logs = [.warnNoCellForTransfer (convertTokenIdToXY tokenId).1
              (convertTokenIdToXY tokenId).2 dst tx bn] ∧
    out = insertOwnerRow
      { db with pixelBlocks := (updateWhere db.pixelBlocks
          (cellKeyIs (convertTokenIdToXY tokenId).1 (convertTokenIdToXY tokenId).2)
          (fun c => { c with currentOwner := dst, timestamp := ts, updatedAt := ts })).1 }
      ⟨(convertTokenIdToXY tokenId).1, (convertTokenIdToXY tokenId).2, dst, ts, tx, bn⟩ ∧
    out = .error fkOwnersMsg ∧
    processEventLog env { e with transactionHash := tx, blockNumber := bn } ts db =
      .error fkOwnersMsg := by
  have hfilter : db.pixelBlocks.filter
      (cellKeyIs (convertTokenIdToXY tokenId).1 (convertTokenIdToXY tokenId).2) = [] :=
    List.filter_eq_nil_iff.mpr (by intro a ha; simp [hmiss a ha])
  have hmapid : (updateWhere db.pixelBlocks
      (cellKeyIs (convertTokenIdToXY tokenId).1 (convertTokenIdToXY tokenId).2)
      (fun c => { c with currentOwner := dst, timestamp := ts, updatedAt := ts })).1 =
      db.pixelBlocks := map_guarded_of_none _ _ _ hmiss
  have hanyf : db.pixelBlocks.any
      (cellKeyIs (convertTokenIdToXY tokenId).1 (convertTokenIdToXY tokenId).2) = false := by
    rw [Bool.eq_false_iff]
    intro hc
    obtain ⟨a, ha, hpa⟩ := List.any_eq_true.mp hc
    rw [hmiss a ha] at hpa
    cases hpa
  have hrun2 := hrun
  simp only [handleTransferEvent, if_neg hreg] at hrun2
  injection hrun2 with h1 h2
  have hcount : (updateWhere db.pixelBlocks
      (cellKeyIs (convertTokenIdToXY tokenId).1 (convertTokenIdToXY tokenId).2)
      (fun c => { c with currentOwner := dst, timestamp := ts, updatedAt := ts })).2 = 0 := by
    simp only [updateWhere, hfilter, List.length_nil]
  have hout : out = .error fkOwnersMsg := by
    rw [← h1]
    apply insertOwnerRow_fk
    show ((updateWhere db.pixelBlocks
      (cellKeyIs (convertTokenIdToXY tokenId).1 (convertTokenIdToXY tokenId).2)
      (fun c => { c with currentOwner := dst, timestamp := ts, updatedAt := ts })).1).any
        (cellKeyIs (convertTokenIdToXY tokenId).1 (convertTokenIdToXY tokenId).2) = false
    rw [hmapid]
    exact hanyf
  refine ⟨hcount, hmapid, ?_, h1.symm, hout, ?_⟩
  · rw [← h2]
    simp only [updateWhere, hfilter, List.length_nil, gt_iff_lt, Nat.lt_irrefl, if_false]
  · simp only [processEventLog, hargs]
    rw [hrun, hout]

/-- Witness for C7: a regular transfer of tokenId 203 (coordinate (2,3))
into the empty database: zero rows updated, warning logged, and the
attempted ownership insert raises the FK violation, which propagates. -/
theorem c7_witness :
    (updateWhere DB.empty.pixelBlocks (cellKeyIs 2 3)
        (fun c => { c with currentOwner := "0xB", timestamp := 9, updatedAt := 9 })).2 = 0 ∧
    (handleTransferEvent envStub DB.empty "0x1111111111111111111111111111111111111111"
        "0xB" 203 9 "tx" 77).2 = [.warnNoCellForTransfer 2 3 "0xB" "tx" 77] ∧
    (handleTransferEvent envStub DB.empty "0x1111111111111111111111111111111111111111"
        "0xB" 203 9 "tx" 77).1 = .error fkOwnersMsg ∧
    processEventLog envStub
      ⟨77, "tx", "Transfer", some 0,
        .transferArgs (some "0x1111111111111111111111111111111111111111") "0xB" (some 203),
        [], []⟩ 9 DB.empty = .error fkOwnersMsg := by
  have h := c7_transfer_missing_cell envStub DB.empty
    ⟨77, "tx", "Transfer", some 0,
      .transferArgs (some "0x1111111111111111111111111111111111111111") "0xB" (some 203),
      [], []⟩
    "0x1111111111111111111111111111111111111111" "0xB" 203 9 77 "tx"
    (handleTransferEvent envStub DB.empty "0x1111111111111111111111111111111111111111"
      "0xB" 203 9 "tx" 77).1
    (handleTransferEvent envStub DB.empty "0x1111111111111111111111111111111111111111"
      "0xB" 203 9 "tx" 77).2
    (by decide) (by intro c hc; simp [DB.empty] at hc) rfl rfl
  exact ⟨h.1, h.2.2.1, h.2.2.2.2.1, h.2.2.2.2.2⟩

/-! ## C4: Named-event address validation -/

/-- A 42-character `0x`-prefixed address containing non-hex characters. -/
def addrBadC4 : String := "0xZZZZZZZZZZZZZZZZZZZZZZZZZZZZZZZZZZZZZZZZ"

/-- A `Named` event carrying the non-hex address `addrBadC4`. -/
def evC4bad : RawEvent :=
  ⟨100, "0xtx4", "Named", some 0,
    .namedArgs (some (.strVal addrBadC4)) (.strVal "alice"), [], []⟩

/-- C4 counterexample: the address `0x` + 40 × `Z` does not match the
strict `0x` + 40-hex-digit shape, yet the `Named` branch accepts it (the
code checks only prefix and length) and writes both the `users` row and
the `user_name_history` row — the event is not skipped.  This refutes the
claim that non-hex addresses of the right shape are skipped with no
write. -/
theorem c4_counterexample :
    strictHexAddress addrBadC4 = false ∧
    namedUserValid (some (.strVal addrBadC4)) = true ∧
    processEventLog envStub evC4bad 5 DB.empty =
      .ok ({ DB.empty with
             users := [⟨addrBadC4, some "alice", 5, 5⟩]
             userNameHistory := [⟨addrBadC4, some "alice", 5, "0xtx4", 100⟩] }, []) ∧
    ({ DB.empty with
       users := [⟨addrBadC4, some "alice", 5, 5⟩]
       userNameHistory := [⟨addrBadC4, some "alice", 5, "0xtx4", 100⟩] } : DB).users ≠
      DB.empty.users := by
  exact ⟨by decide, by decide, rfl, by decide⟩

/-- Appending a first match to a match-free list makes it the found
element. -/
theorem find?_append_singleton {α : Type} (p : α → Bool) (l : List α) (a : α)
    (h : l.find? p = none) (ha : p a = true) :
    (l ++ [a]).find? p = some a := by
  induction l with
  | nil => simp [List.find?, ha]
  | cons b bs ih =>
    rw [List.find?_eq_none] at h
    have hb : ¬ p b = true := h b (List.mem_cons_self b bs)
    rw [List.cons_append, List.find?_cons_of_neg _ hb]
    exact ih (List.find?_eq_none.mpr (fun x hx => h x (List.mem_cons_of_mem b hx)))

/-- C4 amended: the `Named` branch validates the user address only as a
truthy string that starts with `0x` and has length exactly 42 (the
hex-digit content is not checked).  An event failing this check is skipped
entirely before any write (the database is returned unchanged); an event
passing it proceeds to the `users` upsert and the name-history insert. -/
theorem c4_amended (env : ChainEnv) (e : RawEvent) (ts : Nat) (db : DB)
    (user : Option NamedUserArg) (nameArg : NamedNameArg) (p : DB × List LogEntry)
    (hargs : e.args = .namedArgs user nameArg)
    (hrun : processEventLog env e ts db = .ok p) :
    (namedUserValid user = false → p.1 = db) ∧
    (∀ s, user = some (.strVal s) → namedUserValid user = true →
        p.1.userNameHistory = db.userNameHistory ++
          [⟨s, nameToStore nameArg, ts, e.transactionHash, e.blockNumber⟩] ∧
        p.1.users.find? (fun u => u.address == s) =
          some (match db.users.find? (fun u => u.address == s) with
                | some u => { u with userName := nameToStore nameArg, updatedAt := ts }
                | none => ⟨s, nameToStore nameArg, ts, ts⟩)) := by
  simp only [processEventLog, hargs] at hrun
  by_cases hv : namedUserValid user = true
  · rw [if_pos hv] at hrun
    match user, hv with
    | none, hv => simp [namedUserValid] at hv
    | some .nonString, hv => simp [namedUserValid] at hv
    | some (.strVal s0), hv =>
      injection hrun with hrun
      constructor
      · intro hfalse; rw [hv] at hfalse; exact absurd hfalse (by simp)
      · intro s hs hv2
        injection hs with hs
        injection hs with hs
        subst hs
        have hp1 : p.1 = handleNamedEvent db s0 (nameToStore nameArg) ts
            e.transactionHash e.blockNumber := by
          rw [← hrun]
        rw [hp1]
        constructor
        · simp [handleNamedEvent]
        · simp only [handleNamedEvent]
          cases hfind : db.users.find? (fun u => u.address == s0) with
          | some u =>
            have hpu := @List.find?_some UserRow (fun v => v.address == s0) u
              db.users hfind
            have hany : db.users.any (fun u => u.address == s0) = true :=
              List.any_eq_true.mpr
                ⟨u, List.mem_of_find?_eq_some hfind, hpu⟩
            rw [if_pos hany]
            exact find?_map_guarded _ _ (fun a => by simp) _ _ hfind
          | none =>
            have hany : db.users.any (fun u => u.address == s0) = false := by
              rw [List.find?_eq_none] at hfind
              rw [Bool.eq_false_iff]
              intro hco
              obtain ⟨u, hmem, hpu⟩ := List.any_eq_true.mp hco
              exact hfind u hmem hpu
            rw [if_neg (by simp [hany])]
            exact find?_append_singleton _ _ _ hfind (by simp)
  · have hv' : namedUserValid user = false := by simpa using hv
    rw [if_neg hv] at hrun
    injection hrun with hrun
    constructor
    · intro _
      rw [← hrun]
    · intro s hs hv2
      rw [hv2] at hv'
      exact absurd hv' (by simp)

/-- A well-formed `0x` + 40-hex address accepted by both checks. -/
def addrOkC4 : String := "0xaaaaaaaaaaaaaaaaaaaaaaaaaaaaaaaaaaaaaaaa"

/-- A `Named` event carrying a valid address. -/
def evC4ok : RawEvent :=
  ⟨101, "0xtx5", "Named", some 0,
    .namedArgs (some (.strVal addrOkC4)) (.strVal "bob"), [], []⟩

/-- A `Named` event carrying a too-short address. -/
def evC4short : RawEvent :=
  ⟨102, "0xtx6", "Named", some 1,
    .namedArgs (some (.strVal "0xshort")) (.strVal "eve"), [], []⟩

/-- Witness for C4's amended claim: a too-short address leaves the
database untouched, while a valid address appends the name-history row and
upserts the `users` row. -/
theorem c4_witness :
    (processEventLog envStub evC4short 5 dbC6 = .ok (dbC6, [.errorInvalidNamedUser "0xtx6"])) ∧
    (handleNamedEvent DB.empty addrOkC4 (some "bob") 5 "0xtx5" 101).userNameHistory =
      DB.empty.userNameHistory ++ [⟨addrOkC4, some "bob", 5, "0xtx5", 101⟩] ∧
    (handleNamedEvent DB.empty addrOkC4 (some "bob") 5 "0xtx5" 101).users.find?
      (fun u => u.address == addrOkC4) = some ⟨addrOkC4, some "bob", 5, 5⟩ := by
  have h1 := (c4_amended envStub evC4short 5 dbC6 (some (.strVal "0xshort"))
    (.strVal "eve") (dbC6, [.errorInvalidNamedUser "0xtx6"]) rfl rfl).1 (by decide)
  have h2 := (c4_amended envStub evC4ok 5 DB.empty (some (.strVal addrOkC4))
    (.strVal "bob")
    (handleNamedEvent DB.empty addrOkC4 (some "bob") 5 "0xtx5" 101, []) rfl rfl).2
    addrOkC4 rfl (by decide)
  exact ⟨rfl, h2.1, h2.2⟩

/-! ## C5: raw-decode fallback equals the primary decode -/

/-- Binding into a constantly-`none` continuation yields `none`. -/
theorem option_bind_none {α β : Type} (o : Option α) :
    (o.bind fun _ => (none : Option β)) = none := by
  cases o <;> rfl

/-- C5: whenever the generic structured decode of an `Update` log (the
primary path) succeeds on given raw topics and data, the hand-rolled
raw-decode fallback produces exactly the same `(updater, x, y, uri)`
tuple. -/
theorem c5_fallback_matches_primary (topics data : List Nat)
    (t : Nat × Nat × Nat × String)
    (h : primaryDecodeUpdate topics data = some t) :
    fallbackDecodeUpdate topics data = some t := by
  cases topics with
  | nil =>
    simp [primaryDecodeUpdate, decodeEventLog] at h
  | cons sig rest =>
    cases rest with
    | nil =>
      have hmerge0 : ∀ nvs, mergeEventParams updateEventFragment [] nvs = none :=
        fun _ => rfl
      have hlog0 : decodeEventLog updateEventFragment [sig] data = none := by
        have hstep : decodeEventLog updateEventFragment [sig] data =
            Option.bind
              (decodeNonIndexedAux data [AbiType.uintT, AbiType.uintT, AbiType.stringT] 0)
              (fun nvs => mergeEventParams updateEventFragment [] nvs) := rfl
        rw [hstep]
        simp only [hmerge0, option_bind_none]
      unfold primaryDecodeUpdate at h
      rw [hlog0] at h
      exact Option.noConfusion h
    | cons w ws =>
      have hstep : decodeEventLog updateEventFragment (sig :: w :: ws) data =
          Option.bind
            (decodeNonIndexedAux data [AbiType.uintT, AbiType.uintT, AbiType.stringT] 0)
            (fun nvs => mergeEventParams updateEventFragment (w :: ws) nvs) := rfl
      cases ws with
      | cons w2 ws2 =>
        have hinner : ∀ nvs, mergeEventParams
            [(AbiType.uintT, false), (AbiType.uintT, false), (AbiType.stringT, false)]
            (w2 :: ws2) nvs = none := by
          intro nvs
          match nvs with
          | [] => rfl
          | [v1] => rfl
          | [v1, v2] => rfl
          | v1 :: v2 :: v3 :: rest => rfl
        have hmerge2 : ∀ nvs,
            mergeEventParams updateEventFragment (w :: w2 :: ws2) nvs = none := by
          intro nvs
          have hunf : mergeEventParams updateEventFragment (w :: w2 :: ws2) nvs =
              Option.bind (decodeTopicValue .addressT w) (fun v =>
                Option.bind (mergeEventParams
                  [(AbiType.uintT, false), (AbiType.uintT, false), (AbiType.stringT, false)]
                  (w2 :: ws2) nvs) (fun vs => some (v :: vs))) := rfl
          rw [hunf, hinner]
          exact option_bind_none _
        have hlog2 : decodeEventLog updateEventFragment (sig :: w :: w2 :: ws2) data = none := by
          rw [hstep]
          simp only [hmerge2, option_bind_none]
        unfold primaryDecodeUpdate at h
        rw [hlog2] at h
        exact Option.noConfusion h
      | nil =>
        cases h0 : wordAt data 0 with
        | none =>
          have hnvs : decodeNonIndexedAux data
              [AbiType.uintT, AbiType.uintT, AbiType.stringT] 0 = none := by
            simp only [decodeNonIndexedAux, decodeValueAt, h0]
            rfl
          unfold primaryDecodeUpdate at h
          rw [hstep, hnvs] at h
          exact Option.noConfusion h
        | some xv =>
        have h1s : wordAt data (0 + 32) = wordAt data 32 := rfl
        cases h1 : wordAt data 32 with
        | none =>
          have hnvs : decodeNonIndexedAux data
              [AbiType.uintT, AbiType.uintT, AbiType.stringT] 0 = none := by
            simp only [decodeNonIndexedAux, decodeValueAt, h0, h1s, h1]
            rfl
          unfold primaryDecodeUpdate at h
          rw [hstep, hnvs] at h
          exact Option.noConfusion h
        | some yv =>
        have h2s : wordAt data (0 + 32 + 32) = wordAt data 64 := rfl
        cases h2 : wordAt data 64 with
        | none =>
          have hnvs : decodeNonIndexedAux data
              [AbiType.uintT, AbiType.uintT, AbiType.stringT] 0 = none := by
            simp only [decodeNonIndexedAux, decodeValueAt, h0, h1s, h1, h2s, h2]
            rfl
          unfold primaryDecodeUpdate at h
          rw [hstep, hnvs] at h
          exact Option.noConfusion h
        | some off =>
        cases h3 : wordAt data off with
        | none =>
          have hnvs : decodeNonIndexedAux data
              [AbiType.uintT, AbiType.uintT, AbiType.stringT] 0 = none := by
            simp only [decodeNonIndexedAux, decodeValueAt, Option.bind_eq_bind',
              Option.some_bind', h0, h1s, h1, h2s, h2, h3]
            rfl
          unfold primaryDecodeUpdate at h
          rw [hstep, hnvs] at h
          exact Option.noConfusion h
        | some len =>
        cases h4 : bytesAt data (off + 32) len with
        | none =>
          have hnvs : decodeNonIndexedAux data
              [AbiType.uintT, AbiType.uintT, AbiType.stringT] 0 = none := by
            simp only [decodeNonIndexedAux, decodeValueAt, Option.bind_eq_bind',
              Option.some_bind', h0, h1s, h1, h2s, h2, h3, h4]
            rfl
          unfold primaryDecodeUpdate at h
          rw [hstep, hnvs] at h
          exact Option.noConfusion h
        | some bs =>
        have hnvs : decodeNonIndexedAux data
            [AbiType.uintT, AbiType.uintT, AbiType.stringT] 0 =
            some [.uintV xv, .uintV yv, .strV bs] := by
          simp only [decodeNonIndexedAux, decodeValueAt, Option.bind_eq_bind',
            Option.some_bind', h0, h1s, h1, h2s, h2, h3, h4]
        by_cases hw : w < 2 ^ 160
        · have hif : decodeTopicValue AbiType.addressT w = some (AbiValue.addrV w) :=
            if_pos hw
          have hlog : decodeEventLog updateEventFragment (sig :: w :: []) data =
              some [.addrV w, .uintV xv, .uintV yv, .strV bs] := by
            rw [hstep, hnvs]
            show mergeEventParams updateEventFragment [w]
                [AbiValue.uintV xv, AbiValue.uintV yv, AbiValue.strV bs] =
              some [AbiValue.addrV w, AbiValue.uintV xv, AbiValue.uintV yv, AbiValue.strV bs]
            rw [show mergeEventParams updateEventFragment [w]
                [AbiValue.uintV xv, AbiValue.uintV yv, AbiValue.strV bs] =
                Option.bind (decodeTopicValue .addressT w) (fun v =>
                  Option.bind (mergeEventParams
                    [(AbiType.uintT, false), (AbiType.uintT, false), (AbiType.stringT, false)]
                    [] [AbiValue.uintV xv, AbiValue.uintV yv, AbiValue.strV bs])
                    (fun vs => some (v :: vs))) from rfl, hif]
            rfl
          unfold primaryDecodeUpdate at h
          rw [hlog] at h
          have h' : some (w, xv, yv, bytesToString bs) = some t := h
          injection h' with h''
          subst h''
          have hget : ([sig, w].get? 1) = some w := rfl
          have hfb : fallbackDecodeUpdate [sig, w] data =
              some (w % 2 ^ 160, xv, yv, bytesToString bs) := by
            simp only [fallbackDecodeUpdate, Option.bind_eq_bind',
              Option.some_bind', hget, h0, h1, h2, h3, h4]
          rw [hfb, Nat.mod_eq_of_lt hw]
        · have hif : decodeTopicValue AbiType.addressT w = none := if_neg hw
          have hlog : decodeEventLog updateEventFragment (sig :: w :: []) data = none := by
            rw [hstep, hnvs]
            show mergeEventParams updateEventFragment [w]
                [AbiValue.uintV xv, AbiValue.uintV yv, AbiValue.strV bs] = none
            rw [show mergeEventParams updateEventFragment [w]
                [AbiValue.uintV xv, AbiValue.uintV yv, AbiValue.strV bs] =
                Option.bind (decodeTopicValue .addressT w) (fun v =>
                  Option.bind (mergeEventParams
                    [(AbiType.uintT, false), (AbiType.uintT, false), (AbiType.stringT, false)]
                    [] [AbiValue.uintV xv, AbiValue.uintV yv, AbiValue.strV bs])
                    (fun vs => some (v :: vs))) from rfl, hif]
            rfl
          unfold primaryDecodeUpdate at h
          rw [hlog] at h
          exact Option.noConfusion h

/-- Big-endian 32-byte encoding of a word value below 2^256. -/
def w256 (n : Nat) : List Nat :=
  (List.range 32).map (fun i => n / 256 ^ (31 - i) % 256)

/-- ABI-encoded data payload of `(x = 3, y = 7, uri = "hi")`: three head
words (x, y, string offset 96), then the string length word and the padded
string bytes. -/
def dataC5 : List Nat :=
  w256 3 ++ w256 7 ++ w256 96 ++ w256 2 ++ ([104, 105] ++ List.replicate 30 0)

set_option maxRecDepth 8000

/-- Witness for C5: on a concrete well-formed Update log (owner topic
`0xabcd`, x = 3, y = 7, uri = "hi") the primary decode succeeds and the
fallback produces the identical tuple. -/
theorem c5_witness :
    primaryDecodeUpdate [0, 43981] dataC5 = some (43981, 3, 7, "hi") ∧
    fallbackDecodeUpdate [0, 43981] dataC5 = some (43981, 3, 7, "hi") :=
  ⟨by decide,
   c5_fallback_matches_primary [0, 43981] dataC5 (43981, 3, 7, "hi") (by decide)⟩

/-! ## C8: idempotence lemma stack -/

/-- A list equal to its own guarded map has every element fixed by the
guard. -/
theorem map_guarded_fix {α : Type} (p : α → Bool) (f : α → α) (l : List α)
    (h : l.map (fun x => if p x then f x else x) = l) :
    ∀ a ∈ l, (if p a then f a else a) = a := by
  induction l with
  | nil => intro a ha; cases ha
  | cons b bs ih =>
    simp only [List.map_cons, List.cons.injEq] at h
    intro a ha
    rcases List.mem_cons.mp ha with rfl | ha
    · exact h.1
    · exact ih h.2 a ha

/-- Pointwise-fixed elements make a map the identity. -/
theorem map_eq_self_of_fix {α : Type} (f : α → α) (l : List α)
    (h : ∀ a ∈ l, f a = a) : l.map f = l := by
  induction l with
  | nil => rfl
  | cons b bs ih =>
    simp only [List.map_cons, h b (List.mem_cons_self b bs)]
    rw [ih (fun a ha => h a (List.mem_cons_of_mem b ha))]

/-- Guarded mapping twice equals mapping once when the update preserves
the guard and is idempotent. -/
theorem map_guarded_idem {α : Type} (p : α → Bool) (f : α → α)
    (hpres : ∀ a, p (f a) = p a) (hidem : ∀ a, f (f a) = f a) (l : List α) :
    (l.map (fun x => if p x then f x else x)).map
        (fun x => if p x then f x else x) =
      l.map (fun x => if p x then f x else x) := by
  induction l with
  | nil => rfl
  | cons b bs ih =>
    simp only [List.map_cons, ih, List.cons.injEq, and_true]
    by_cases hb : p b = true
    · rw [if_pos hb, if_pos (by rw [hpres]; exact hb), hidem]
    · rw [if_neg hb, if_neg hb]

/-- The `ON CONFLICT (x, y) DO UPDATE` upsert is idempotent when the
inserted row carries the key, the update clause preserves the key, is
idempotent, and fixes the fresh row. -/
theorem upsertXY_idem (cells : List CellRow) (x y : Nat) (ins : CellRow)
    (upd : CellRow → CellRow)
    (hins : cellKeyIs x y ins = true)
    (hpres : ∀ c, cellKeyIs x y (upd c) = cellKeyIs x y c)
    (hidem : ∀ c, upd (upd c) = upd c)
    (hupdins : upd ins = ins) :
    upsertXY (upsertXY cells x y ins upd) x y ins upd =
      upsertXY cells x y ins upd := by
  by_cases hany : cells.any (cellKeyIs x y) = true
  · have hS : upsertXY cells x y ins upd =
        cells.map (fun c => if cellKeyIs x y c then upd c else c) := by
      rw [upsertXY, if_pos hany]
    rw [hS, upsertXY, if_pos (by rw [any_map_guarded _ _ _ hpres]; exact hany)]
    exact map_guarded_idem _ _ hpres hidem cells
  · have hS : upsertXY cells x y ins upd = cells ++ [ins] := by
      rw [upsertXY, if_neg hany]
    have hany2 : (cells ++ [ins]).any (cellKeyIs x y) = true := by
      rw [List.any_append]
      simp [hins]
    rw [hS, upsertXY, if_pos hany2, List.map_append]
    have hall : ∀ c ∈ cells, cellKeyIs x y c = false := by
      intro c hc
      by_contra hcc
      exact hany (List.any_eq_true.mpr ⟨c, hc, by simpa using hcc⟩)
    rw [map_guarded_of_none _ _ _ hall]
    simp [hins, hupdins]

/-- Cells-level effect of one `handleBuyEvent` call: the buy upsert at one
coordinate (proof-layer view of the handler; `handleBuyEvent` stays the
canonical embedding). -/
def buyCellsStep (env : ChainEnv) (buyer : String) (ts : Nat)
    (cs : List CellRow) (p : Nat × Nat) : List CellRow :=
  upsertXY cs p.1 p.2
    ⟨p.1, p.2, (env.tokenURI (calculateTokenId p.1 p.2)).getD "", buyer, ts, ts, ts⟩
    (fun c => { c with currentOwner := buyer,
                       uri := (env.tokenURI (calculateTokenId p.1 p.2)).getD "",
                       timestamp := ts, updatedAt := ts })

/-- An upsert at `(x, y)` guarantees the key is present afterwards, when
the inserted row carries the key and the update clause preserves it. -/
theorem any_upsertXY_self (cells : List CellRow) (x y : Nat) (ins : CellRow)
    (upd : CellRow → CellRow)
    (hins : cellKeyIs x y ins = true)
    (hpres : ∀ c, cellKeyIs x y (upd c) = cellKeyIs x y c) :
    (upsertXY cells x y ins upd).any (cellKeyIs x y) = true := by
  by_cases hany : cells.any (cellKeyIs x y) = true
  · rw [upsertXY, if_pos hany, any_map_guarded _ _ _ hpres]
    exact hany
  · rw [upsertXY, if_neg hany, List.any_append]
    simp [hins]

/-- The buy handler always succeeds — its own upsert provides the cell row
that satisfies the ownership insert's FK — and its effect is the
`buyCellsStep` upsert plus the appended ownership row. -/
theorem handleBuyEvent_ok (env : ChainEnv) (db : DB) (buyer : String)
    (x y ts bn : Nat) (tx : String) :
    handleBuyEvent env db buyer x y ts tx bn =
      .ok { db with
              pixelBlocks := buyCellsStep env buyer ts db.pixelBlocks (x, y)
              pixelBlockOwners := db.pixelBlockOwners ++ [⟨x, y, buyer, ts, tx, bn⟩] } := by
  have h : (buyCellsStep env buyer ts db.pixelBlocks (x, y)).any (cellKeyIs x y) = true :=
    any_upsertXY_self _ _ _ _ _ (by simp [cellKeyIs]) (fun c => rfl)
  exact insertOwnerRow_ok
    { db with pixelBlocks := buyCellsStep env buyer ts db.pixelBlocks (x, y) }
    ⟨x, y, buyer, ts, tx, bn⟩ h

/-- One buy upsert is idempotent on the cells. -/
theorem buyCellsStep_idem (env : ChainEnv) (buyer : String) (ts : Nat)
    (cs : List CellRow) (p : Nat × Nat) :
    buyCellsStep env buyer ts (buyCellsStep env buyer ts cs p) p =
      buyCellsStep env buyer ts cs p :=
  upsertXY_idem _ _ _ _ _ (by simp [cellKeyIs]) (fun _ => rfl) (fun _ => rfl) rfl

/-- A state fixed by the buy upsert at `p` stays fixed by it after the buy
upsert at any `q` is applied. -/
theorem buyCellsStep_transfer (env : ChainEnv) (buyer : String) (ts : Nat)
    (p q : Nat × Nat) (T : List CellRow)
    (hfix : buyCellsStep env buyer ts T p = T) :
    buyCellsStep env buyer ts (buyCellsStep env buyer ts T q) p =
      buyCellsStep env buyer ts T q := by
  by_cases hpq : p = q
  · subst hpq
    exact buyCellsStep_idem env buyer ts T p
  · have hanyp : T.any (cellKeyIs p.1 p.2) = true := by
      by_contra hno
      have hb : buyCellsStep env buyer ts T p = T ++
          [⟨p.1, p.2, (env.tokenURI (calculateTokenId p.1 p.2)).getD "",
            buyer, ts, ts, ts⟩] := by
        rw [buyCellsStep, upsertXY, if_neg hno]
      rw [hfix] at hb
      have := congrArg List.length hb
      simp at this
    have hmapfix : T.map (fun c => if cellKeyIs p.1 p.2 c then
        { c with currentOwner := buyer,
                 uri := (env.tokenURI (calculateTokenId p.1 p.2)).getD "",
                 timestamp := ts, updatedAt := ts } else c) = T := by
      have hstep : buyCellsStep env buyer ts T p =
          T.map (fun c => if cellKeyIs p.1 p.2 c then
            { c with currentOwner := buyer,
                     uri := (env.tokenURI (calculateTokenId p.1 p.2)).getD "",
                     timestamp := ts, updatedAt := ts } else c) := by
        rw [buyCellsStep, upsertXY, if_pos hanyp]
      exact hstep.symm.trans hfix
    have hptwise := map_guarded_fix _ _ _ hmapfix
    have hkeys : ¬ (q.1 = p.1 ∧ q.2 = p.2) := by
      intro hk
      exact hpq (Prod.ext hk.1.symm hk.2.symm)
    by_cases hanyq : T.any (cellKeyIs q.1 q.2) = true
    · have hq : buyCellsStep env buyer ts T q =
          T.map (fun c => if cellKeyIs q.1 q.2 c then
            { c with currentOwner := buyer,
                     uri := (env.tokenURI (calculateTokenId q.1 q.2)).getD "",
                     timestamp := ts, updatedAt := ts } else c) := by
        rw [buyCellsStep, upsertXY, if_pos hanyq]
      have hanyp2 : (buyCellsStep env buyer ts T q).any (cellKeyIs p.1 p.2) = true := by
        rw [hq]
        rw [any_map_guarded (cellKeyIs q.1 q.2) (cellKeyIs p.1 p.2)
          (fun c => { c with currentOwner := buyer,
                             uri := (env.tokenURI (calculateTokenId q.1 q.2)).getD "",
                             timestamp := ts, updatedAt := ts })
          (fun c => rfl)]
        exact hanyp
      have hfix2 : ∀ c' ∈ buyCellsStep env buyer ts T q,
          (if cellKeyIs p.1 p.2 c' then
            { c' with currentOwner := buyer,
                      uri := (env.tokenURI (calculateTokenId p.1 p.2)).getD "",
                      timestamp := ts, updatedAt := ts } else c') = c' := by
        rw [hq]
        intro c' hc'
        obtain ⟨c, hcmem, hceq⟩ := List.mem_map.mp hc'
        by_cases hqc : cellKeyIs q.1 q.2 c = true
        · rw [if_pos hqc] at hceq
          have hpc : cellKeyIs p.1 p.2 c = false := by
            by_contra hpc'
            have hpc'' : cellKeyIs p.1 p.2 c = true := by simpa using hpc'
            simp only [cellKeyIs, Bool.and_eq_true, beq_iff_eq] at hqc hpc''
            exact hkeys ⟨by rw [← hqc.1, hpc''.1], by rw [← hqc.2, hpc''.2]⟩
          rw [← hceq]
          rw [if_neg (by simp [cellKeyIs] at hpc ⊢; intro hx; exact hpc hx)]
        · rw [if_neg hqc] at hceq
          rw [← hceq]
          exact hptwise c hcmem
      rw [buyCellsStep, upsertXY, if_pos hanyp2]
      exact map_eq_self_of_fix _ _ hfix2
    · have hq : buyCellsStep env buyer ts T q = T ++
          [⟨q.1, q.2, (env.tokenURI (calculateTokenId q.1 q.2)).getD "",
            buyer, ts, ts, ts⟩] := by
        rw [buyCellsStep, upsertXY, if_neg hanyq]
      have hanyp2 : (buyCellsStep env buyer ts T q).any (cellKeyIs p.1 p.2) = true := by
        rw [hq, List.any_append, hanyp, Bool.true_or]
      rw [buyCellsStep, upsertXY, if_pos hanyp2, hq, List.map_append]
      have hinsfix : cellKeyIs p.1 p.2
          (⟨q.1, q.2, (env.tokenURI (calculateTokenId q.1 q.2)).getD "",
            buyer, ts, ts, ts⟩ : CellRow) = false := by
        simp only [cellKeyIs, Bool.and_eq_true, beq_iff_eq]
        simp only [Bool.and_eq_false_iff]
        by_contra hc
        simp only [Bool.and_eq_false_iff, not_or] at hc
        obtain ⟨hc1, hc2⟩ := hc
        simp only [Bool.not_eq_false, beq_iff_eq] at hc1 hc2
        exact hkeys ⟨hc1, hc2⟩
      rw [map_eq_self_of_fix _ _ hptwise]
      simp [hinsfix]

/-- A state fixed by the buy upsert at `p` stays fixed under a whole fold
of buy upserts. -/
theorem buyCellsStep_fold_fix (env : ChainEnv) (buyer : String) (ts : Nat)
    (p : Nat × Nat) :
    ∀ (ps : List (Nat × Nat)) (T : List CellRow),
      buyCellsStep env buyer ts T p = T →
      buyCellsStep env buyer ts (ps.foldl (buyCellsStep env buyer ts) T) p =
        ps.foldl (buyCellsStep env buyer ts) T := by
  intro ps
  induction ps with
  | nil => intro T h; exact h
  | cons q qs ih =>
    intro T h
    exact ih _ (buyCellsStep_transfer env buyer ts p q T h)

/-- After folding buy upserts over `ps`, the result is a fixpoint of each
constituent upsert. -/
theorem buyCellsStep_saturate (env : ChainEnv) (buyer : String) (ts : Nat) :
    ∀ (ps : List (Nat × Nat)) (T : List CellRow) (p : Nat × Nat), p ∈ ps →
      buyCellsStep env buyer ts (ps.foldl (buyCellsStep env buyer ts) T) p =
        ps.foldl (buyCellsStep env buyer ts) T := by
  intro ps
  induction ps with
  | nil => intro T p hp; cases hp
  | cons q qs ih =>
    intro T p hp
    rcases List.mem_cons.mp hp with rfl | hp
    · exact buyCellsStep_fold_fix env buyer ts p qs _
        (buyCellsStep_idem env buyer ts T p)
    · exact ih _ p hp

/-- A common fixpoint of all the upserts of `ps` is fixed by the whole
fold. -/
theorem foldl_fix_of_all (env : ChainEnv) (buyer : String) (ts : Nat)
    (ps : List (Nat × Nat)) (S : List CellRow)
    (h : ∀ p ∈ ps, buyCellsStep env buyer ts S p = S) :
    ps.foldl (buyCellsStep env buyer ts) S = S := by
  induction ps with
  | nil => rfl
  | cons q qs ih =>
    rw [List.foldl_cons, h q (List.mem_cons_self q qs)]
    exact ih (fun p hp => h p (List.mem_cons_of_mem q hp))

/-- The whole batch-buy fold is idempotent on the cells. -/
theorem buyCells_fold_idem (env : ChainEnv) (buyer : String) (ts : Nat)
    (ps : List (Nat × Nat)) (cells : List CellRow) :
    ps.foldl (buyCellsStep env buyer ts)
        (ps.foldl (buyCellsStep env buyer ts) cells) =
      ps.foldl (buyCellsStep env buyer ts) cells :=
  foldl_fix_of_all env buyer ts ps _
    (fun p hp => buyCellsStep_saturate env buyer ts ps cells p hp)

/-- Proof-layer view of the batch-buy loop's cumulative database effect. -/
def batchBuyFold (env : ChainEnv) (buyer : String) (ts : Nat) (tx : String)
    (bn : Nat) (ps : List (Nat × Nat)) (db : DB) : DB :=
  ps.foldl (fun d p =>
    { d with pixelBlocks := buyCellsStep env buyer ts d.pixelBlocks p
             pixelBlockOwners := d.pixelBlockOwners ++ [⟨p.1, p.2, buyer, ts, tx, bn⟩] }) db

/-- The batch-buy loop never raises — each constituent buy satisfies its
own FK — and returns the cumulative fold. -/
theorem runBatchBuys_ok (env : ChainEnv) (buyer : String) (ts : Nat)
    (tx : String) (bn : Nat) :
    ∀ (ps : List (Nat × Nat)) (db : DB),
      runBatchBuys env buyer ts tx bn ps db =
        .ok (batchBuyFold env buyer ts tx bn ps db) := by
  intro ps
  induction ps with
  | nil => intro db; rfl
  | cons p qs ih =>
    intro db
    simp only [runBatchBuys, handleBuyEvent_ok]
    exact ih _

/-- The batch-buy fold's `pixel_blocks` effect is the cells-level fold. -/
theorem batchBuyFold_pixelBlocks (env : ChainEnv) (buyer : String) (ts : Nat)
    (tx : String) (bn : Nat) :
    ∀ (ps : List (Nat × Nat)) (db : DB),
      (batchBuyFold env buyer ts tx bn ps db).pixelBlocks =
        ps.foldl (buyCellsStep env buyer ts) db.pixelBlocks := by
  intro ps
  induction ps with
  | nil => intro db; rfl
  | cons p qs ih =>
    intro db
    simp only [batchBuyFold, List.foldl_cons]
    exact ih _

/-- The batch-buy fold does not touch the `events` table. -/
theorem batchBuyFold_events (env : ChainEnv) (buyer : String) (ts : Nat)
    (tx : String) (bn : Nat) :
    ∀ (ps : List (Nat × Nat)) (db : DB),
      (batchBuyFold env buyer ts tx bn ps db).events = db.events := by
  intro ps
  induction ps with
  | nil => intro db; rfl
  | cons p qs ih =>
    intro db
    simp only [batchBuyFold, List.foldl_cons]
    exact ih _

/-- Cells-level effect of `handleTransferEvent` (proof-layer view). -/
def transferCells (env : ChainEnv) (src dst : String) (tokenId ts : Nat)
    (cells : List CellRow) : List CellRow :=
  let x := (convertTokenIdToXY tokenId).1
  let y := (convertTokenIdToXY tokenId).2
  if toLowerCase src = toLowerCase zeroAddress then
    upsertXY cells x y
      ⟨x, y, (env.tokenURI tokenId).getD "", dst, ts, ts, ts⟩
      (fun c => { c with currentOwner := dst,
                         uri := if (env.tokenURI tokenId).getD "" = "" then c.uri
                                else (env.tokenURI tokenId).getD "",
                         timestamp := ts, updatedAt := ts })
  else
    (updateWhere cells (cellKeyIs x y)
      (fun c => { c with currentOwner := dst, timestamp := ts, updatedAt := ts })).1

/-- When the transfer handler succeeds, its `pixel_blocks` effect is
`transferCells` and the `events` table is untouched. -/
theorem handleTransferEvent_ok_cells (env : ChainEnv) (db : DB)
    (src dst : String) (tokenId ts bn : Nat) (tx : String) (db' : DB)
    (h : (handleTransferEvent env db src dst tokenId ts tx bn).1 = .ok db') :
    db'.pixelBlocks = transferCells env src dst tokenId ts db.pixelBlocks ∧
    db'.events = db.events := by
  by_cases hm : toLowerCase src = toLowerCase zeroAddress
  · simp only [handleTransferEvent, if_pos hm] at h
    rw [insertOwnerRow_ok] at h
    · injection h with h
      subst h
      constructor
      · simp only [transferCells, if_pos hm]
      · rfl
    · exact any_upsertXY_self _ _ _ _ _ (by simp [cellKeyIs]) (fun c => rfl)
  · simp only [handleTransferEvent, if_neg hm] at h
    rw [insertOwnerRow] at h
    split at h
    · injection h with h
      subst h
      constructor
      · simp only [transferCells, if_neg hm]
      · rfl
    · exact absurd h (by simp)

/-- The transfer-handler cells effect is idempotent. -/
theorem transferCells_idem (env : ChainEnv) (src dst : String)
    (tokenId ts : Nat) (cells : List CellRow) :
    transferCells env src dst tokenId ts (transferCells env src dst tokenId ts cells) =
      transferCells env src dst tokenId ts cells := by
  by_cases hm : toLowerCase src = toLowerCase zeroAddress
  · simp only [transferCells, if_pos hm]
    refine upsertXY_idem _ _ _ _ _ (by simp [cellKeyIs]) (fun c => rfl) ?_ ?_
    · intro c
      by_cases hu : (env.tokenURI tokenId).getD "" = "" <;> simp [hu]
    · by_cases hu : (env.tokenURI tokenId).getD "" = "" <;> simp [hu]
  · simp only [transferCells, if_neg hm, updateWhere]
    exact map_guarded_idem
      (cellKeyIs (convertTokenIdToXY tokenId).1 (convertTokenIdToXY tokenId).2)
      (fun c => { c with currentOwner := dst, timestamp := ts, updatedAt := ts })
      (fun c => rfl) (fun c => rfl) cells

/-- When the update handler succeeds, its `pixel_blocks` effect is the
ownership-guarded UPDATE and the `events` table is untouched. -/
theorem handleUpdateEvent_ok_cells (db : DB) (updater : String) (x y : Nat)
    (uri : String) (ts bn : Nat) (tx : String) (db' : DB)
    (h : (handleUpdateEvent db updater x y uri ts tx bn).1 = .ok db') :
    db'.pixelBlocks = (updateWhere db.pixelBlocks
        (fun c => cellKeyIs x y c && c.currentOwner == updater)
        (fun c => { c with uri := uri, timestamp := ts, updatedAt := ts })).1 ∧
    db'.events = db.events := by
  simp only [handleUpdateEvent] at h
  rw [insertUriHistRow] at h
  split at h
  · injection h with h
    subst h
    exact ⟨rfl, rfl⟩
  · exact absurd h (by simp)

/-- The named handler does not touch `events` or `pixel_blocks`. -/
theorem handleNamedEvent_events (db : DB) (user : String) (name : Option String)
    (ts bn : Nat) (tx : String) :
    (handleNamedEvent db user name ts tx bn).events = db.events ∧
    (handleNamedEvent db user name ts tx bn).pixelBlocks = db.pixelBlocks :=
  ⟨rfl, rfl⟩

/-- The Decoder/Mutator pipeline never touches the `events` table: only the
batch loop's idempotent insert writes it. -/
theorem processEventLog_events (env : ChainEnv) (e : RawEvent) (ts : Nat)
    (db db' : DB) (logs : List LogEntry)
    (h : processEventLog env e ts db = .ok (db', logs)) :
    db'.events = db.events := by
  cases ha : e.args with
  | buyArgs buyer ox oy =>
    cases ox with
    | none => simp [processEventLog, ha] at h
    | some x =>
      cases oy with
      | none => simp [processEventLog, ha] at h
      | some y =>
        simp only [processEventLog, ha, handleBuyEvent_ok, Except.ok.injEq,
          Prod.mk.injEq] at h
        rw [← h.1]
  | batchBuyArgs buyer xs ys =>
    by_cases hxy : xs.length ≤ ys.length
    · simp only [processEventLog, ha, if_pos hxy, runBatchBuys_ok, Except.ok.injEq,
        Prod.mk.injEq] at h
      rw [← h.1, batchBuyFold_events]
    · simp [processEventLog, ha, if_neg hxy] at h
  | transferArgs src dst otid =>
    cases src with
    | none => simp [processEventLog, ha] at h
    | some from_ =>
      cases otid with
      | none => simp [processEventLog, ha] at h
      | some tid =>
        simp only [processEventLog, ha] at h
        rcases hT : handleTransferEvent env db from_ dst tid ts
            e.transactionHash e.blockNumber with ⟨outT, lgT⟩
        rw [hT] at h
        cases outT with
        | error m => simp at h
        | ok db1 =>
          simp only [Except.ok.injEq, Prod.mk.injEq] at h
          have hok : (handleTransferEvent env db from_ dst tid ts
              e.transactionHash e.blockNumber).1 = .ok db1 := by rw [hT]
          rw [← h.1]
          exact (handleTransferEvent_ok_cells env db from_ dst tid ts
            e.blockNumber e.transactionHash db1 hok).2
  | updateArgs primary =>
    cases primary with
    | some p =>
      simp only [processEventLog, ha] at h
      rcases hU : handleUpdateEvent db p.owner p.x p.y p.tokenURI ts
          e.transactionHash e.blockNumber with ⟨outU, lgU⟩
      rw [hU] at h
      cases outU with
      | error m => simp at h
      | ok db1 =>
        simp only [Except.ok.injEq, Prod.mk.injEq] at h
        have hok : (handleUpdateEvent db p.owner p.x p.y p.tokenURI ts
            e.transactionHash e.blockNumber).1 = .ok db1 := by rw [hU]
        rw [← h.1]
        exact (handleUpdateEvent_ok_cells db p.owner p.x p.y p.tokenURI ts
          e.blockNumber e.transactionHash db1 hok).2
    | none =>
      cases hf : fallbackDecodeUpdate e.topics e.data with
      | none =>
        simp only [processEventLog, ha, hf, Except.ok.injEq, Prod.mk.injEq] at h
        rw [← h.1]
      | some q =>
        obtain ⟨a, x, y, u⟩ := q
        simp only [processEventLog, ha, hf] at h
        rcases hU : handleUpdateEvent db (natToAddrHex a) x y u ts
            e.transactionHash e.blockNumber with ⟨outU, lgU⟩
        rw [hU] at h
        cases outU with
        | error m => simp at h
        | ok db1 =>
          simp only [Except.ok.injEq, Prod.mk.injEq] at h
          have hok : (handleUpdateEvent db (natToAddrHex a) x y u ts
              e.transactionHash e.blockNumber).1 = .ok db1 := by rw [hU]
          rw [← h.1]
          exact (handleUpdateEvent_ok_cells db (natToAddrHex a) x y u ts
            e.blockNumber e.transactionHash db1 hok).2
  | ownershipArgs =>
    simp only [processEventLog, ha, Except.ok.injEq, Prod.mk.injEq] at h
    rw [← h.1]
  | namedArgs user nameArg =>
    by_cases hv : namedUserValid user = true
    · match user, hv with
      | some (.strVal s0), hv =>
        simp only [processEventLog, ha, if_pos hv, Except.ok.injEq, Prod.mk.injEq] at h
        rw [← h.1]
        exact (handleNamedEvent_events _ _ _ _ _ _).1
    · simp only [processEventLog, ha, if_neg hv, Except.ok.injEq, Prod.mk.injEq] at h
      rw [← h.1]
  | unknownArgs name =>
    simp only [processEventLog, ha, Except.ok.injEq, Prod.mk.injEq] at h
    rw [← h.1]

/-- Running the Decoder/Mutator pipeline for an event a second time, from a
state whose cells are the first run's output, leaves the cells unchanged. -/
theorem processEventLog_cells_idem (env : ChainEnv) (e : RawEvent) (ts : Nat)
    (dbA dbB dbA' dbB' : DB) (lA lB : List LogEntry)
    (hAB : dbB.pixelBlocks = dbA'.pixelBlocks)
    (hA : processEventLog env e ts dbA = .ok (dbA', lA))
    (hB : processEventLog env e ts dbB = .ok (dbB', lB)) :
    dbB'.pixelBlocks = dbA'.pixelBlocks := by
  cases ha : e.args with
  | buyArgs buyer ox oy =>
    cases ox with
    | none => simp [processEventLog, ha] at hA
    | some x =>
      cases oy with
      | none => simp [processEventLog, ha] at hA
      | some y =>
        simp only [processEventLog, ha, handleBuyEvent_ok, Except.ok.injEq,
          Prod.mk.injEq] at hA hB
        have hAp : dbA'.pixelBlocks = buyCellsStep env buyer ts dbA.pixelBlocks (x, y) := by
          rw [← hA.1]
        have hBp : dbB'.pixelBlocks = buyCellsStep env buyer ts dbB.pixelBlocks (x, y) := by
          rw [← hB.1]
        rw [hBp, hAB, hAp]
        exact buyCellsStep_idem env buyer ts dbA.pixelBlocks (x, y)
  | batchBuyArgs buyer xs ys =>
    by_cases hxy : xs.length ≤ ys.length
    · simp only [processEventLog, ha, if_pos hxy, runBatchBuys_ok, Except.ok.injEq,
        Prod.mk.injEq] at hA hB
      have hAp : dbA'.pixelBlocks =
          (xs.zip ys).foldl (buyCellsStep env buyer ts) dbA.pixelBlocks := by
        rw [← hA.1, batchBuyFold_pixelBlocks]
      have hBp : dbB'.pixelBlocks =
          (xs.zip ys).foldl (buyCellsStep env buyer ts) dbB.pixelBlocks := by
        rw [← hB.1, batchBuyFold_pixelBlocks]
      rw [hBp, hAB, hAp]
      exact buyCells_fold_idem env buyer ts (xs.zip ys) dbA.pixelBlocks
    · simp [processEventLog, ha, if_neg hxy] at hA
  | transferArgs src dst otid =>
    cases src with
    | none => simp [processEventLog, ha] at hA
    | some from_ =>
      cases otid with
      | none => simp [processEventLog, ha] at hA
      | some tid =>
        simp only [processEventLog, ha] at hA hB
        rcases hTA : handleTransferEvent env dbA from_ dst tid ts
            e.transactionHash e.blockNumber with ⟨outA, lgA⟩
        rcases hTB : handleTransferEvent env dbB from_ dst tid ts
            e.transactionHash e.blockNumber with ⟨outB, lgB⟩
        rw [hTA] at hA
        rw [hTB] at hB
        cases outA with
        | error m => simp at hA
        | ok dA =>
          cases outB with
          | error m => simp at hB
          | ok dB =>
            simp only [Except.ok.injEq, Prod.mk.injEq] at hA hB
            have hokA : (handleTransferEvent env dbA from_ dst tid ts
                e.transactionHash e.blockNumber).1 = .ok dA := by rw [hTA]
            have hokB : (handleTransferEvent env dbB from_ dst tid ts
                e.transactionHash e.blockNumber).1 = .ok dB := by rw [hTB]
            have hcA := handleTransferEvent_ok_cells env dbA from_ dst tid ts
              e.blockNumber e.transactionHash dA hokA
            have hcB := handleTransferEvent_ok_cells env dbB from_ dst tid ts
              e.blockNumber e.transactionHash dB hokB
            rw [← hA.1, ← hB.1, hcB.1, hAB, ← hA.1, hcA.1]
            exact transferCells_idem env from_ dst tid ts dbA.pixelBlocks
  | updateArgs primary =>
    cases primary with
    | some p =>
      simp only [processEventLog, ha] at hA hB
      rcases hUA : handleUpdateEvent dbA p.owner p.x p.y p.tokenURI ts
          e.transactionHash e.blockNumber with ⟨outA, lgA⟩
      rcases hUB : handleUpdateEvent dbB p.owner p.x p.y p.tokenURI ts
          e.transactionHash e.blockNumber with ⟨outB, lgB⟩
      rw [hUA] at hA
      rw [hUB] at hB
      cases outA with
      | error m => simp at hA
      | ok dA =>
        cases outB with
        | error m => simp at hB
        | ok dB =>
          simp only [Except.ok.injEq, Prod.mk.injEq] at hA hB
          have hokA : (handleUpdateEvent dbA p.owner p.x p.y p.tokenURI ts
              e.transactionHash e.blockNumber).1 = .ok dA := by rw [hUA]
          have hokB : (handleUpdateEvent dbB p.owner p.x p.y p.tokenURI ts
              e.transactionHash e.blockNumber).1 = .ok dB := by rw [hUB]
          have hcA := handleUpdateEvent_ok_cells dbA p.owner p.x p.y p.tokenURI ts
            e.blockNumber e.transactionHash dA hokA
          have hcB := handleUpdateEvent_ok_cells dbB p.owner p.x p.y p.tokenURI ts
            e.blockNumber e.transactionHash dB hokB
          rw [← hA.1, ← hB.1, hcB.1, hAB, ← hA.1, hcA.1, updateWhere, updateWhere]
          exact map_guarded_idem
            (fun c => cellKeyIs p.x p.y c && c.currentOwner == p.owner)
            (fun c => { c with uri := p.tokenURI, timestamp := ts, updatedAt := ts })
            (fun c => rfl) (fun c => rfl) dbA.pixelBlocks
    | none =>
      cases hf : fallbackDecodeUpdate e.topics e.data with
      | none =>
        simp only [processEventLog, ha, hf, Except.ok.injEq, Prod.mk.injEq] at hA hB
        rw [← hB.1, hAB]
      | some q =>
        obtain ⟨a, x, y, u⟩ := q
        simp only [processEventLog, ha, hf] at hA hB
        rcases hUA : handleUpdateEvent dbA (natToAddrHex a) x y u ts
            e.transactionHash e.blockNumber with ⟨outA, lgA⟩
        rcases hUB : handleUpdateEvent dbB (natToAddrHex a) x y u ts
            e.transactionHash e.blockNumber with ⟨outB, lgB⟩
        rw [hUA] at hA
        rw [hUB] at hB
        cases outA with
        | error m => simp at hA
        | ok dA =>
          cases outB with
          | error m => simp at hB
          | ok dB =>
            simp only [Except.ok.injEq, Prod.mk.injEq] at hA hB
            have hokA : (handleUpdateEvent dbA (natToAddrHex a) x y u ts
                e.transactionHash e.blockNumber).1 = .ok dA := by rw [hUA]
            have hokB : (handleUpdateEvent dbB (natToAddrHex a) x y u ts
                e.transactionHash e.blockNumber).1 = .ok dB := by rw [hUB]
            have hcA := handleUpdateEvent_ok_cells dbA (natToAddrHex a) x y u ts
              e.blockNumber e.transactionHash dA hokA
            have hcB := handleUpdateEvent_ok_cells dbB (natToAddrHex a) x y u ts
              e.blockNumber e.transactionHash dB hokB
            rw [← hA.1, ← hB.1, hcB.1, hAB, ← hA.1, hcA.1, updateWhere, updateWhere]
            exact map_guarded_idem
              (fun c => cellKeyIs x y c && c.currentOwner == natToAddrHex a)
              (fun c => { c with uri := u, timestamp := ts, updatedAt := ts })
              (fun c => rfl) (fun c => rfl) dbA.pixelBlocks
  | ownershipArgs =>
    simp only [processEventLog, ha, Except.ok.injEq, Prod.mk.injEq] at hA hB
    rw [← hB.1, hAB]
  | namedArgs user nameArg =>
    by_cases hv : namedUserValid user = true
    · match user, hv with
      | some (.strVal s0), hv =>
        simp only [processEventLog, ha, if_pos hv, Except.ok.injEq, Prod.mk.injEq] at hA hB
        rw [← hB.1]
        exact ((handleNamedEvent_events _ _ _ _ _ _).2).trans hAB
    · simp only [processEventLog, ha, if_neg hv, Except.ok.injEq, Prod.mk.injEq] at hA hB
      rw [← hB.1, hAB]
  | unknownArgs name =>
    simp only [processEventLog, ha, Except.ok.injEq, Prod.mk.injEq] at hA hB
    rw [← hB.1, hAB]

/-- A fresh `(transaction_hash, log_index)` key makes the idempotent insert
append the row. -/
theorem insertEventRow_fresh (db : DB) (e : RawEvent) (li ts : Nat)
    (h : db.events.any (fun r =>
      r.transactionHash == e.transactionHash && r.logIndex == li) = false) :
    (insertEventRow db e li ts).events = db.events ++
      [⟨e.blockNumber, e.transactionHash, e.eventName, serializeArgs e.args, ts, li⟩] := by
  rw [insertEventRow, if_neg (by simp [h])]

/-- A duplicate `(transaction_hash, log_index)` key makes the idempotent
insert a no-op (`ON CONFLICT DO NOTHING`). -/
theorem insertEventRow_dup (db : DB) (e : RawEvent) (li ts : Nat)
    (h : db.events.any (fun r =>
      r.transactionHash == e.transactionHash && r.logIndex == li) = true) :
    insertEventRow db e li ts = db := by
  rw [insertEventRow, if_pos h]

/-! ## C8: idempotence of double event application -/

/-- C8: processing the same event twice (same `transactionHash` and
`logIndex`) is idempotent at the event-log and Cell level: afterwards
exactly one `events` row carries the key (the second insert hits
`ON CONFLICT (transaction_hash, log_index) DO NOTHING`), and the
`pixel_blocks` state equals what the single application produced. -/
theorem c8_idempotent (env : ChainEnv) (e : RawEvent) (db db1 db2 : DB)
    (li : Nat) (l1 l2 : List LogEntry)
    (hli : e.logIndex = some li)
    (h0 : (db.events.filter (fun r =>
        r.transactionHash == e.transactionHash && r.logIndex == li)).length = 0)
    (h1 : processOneEvent env e db = .ok (db1, l1))
    (h2 : processOneEvent env e db1 = .ok (db2, l2)) :
    db2.events = db1.events ∧
    (db1.events.filter (fun r =>
        r.transactionHash == e.transactionHash && r.logIndex == li)).length = 1 ∧
    db2.pixelBlocks = db1.pixelBlocks := by
  simp only [processOneEvent, hli] at h1 h2
  have hanyfalse : db.events.any (fun r =>
      r.transactionHash == e.transactionHash && r.logIndex == li) = false := by
    rw [Bool.eq_false_iff]
    intro hc
    obtain ⟨r, hmem, hr⟩ := List.any_eq_true.mp hc
    have hrf : r ∈ db.events.filter (fun r =>
        r.transactionHash == e.transactionHash && r.logIndex == li) :=
      List.mem_filter.mpr ⟨hmem, hr⟩
    rw [List.length_eq_zero] at h0
    simp [h0] at hrf
  have hrow : (insertEventRow db e li (timestampFor env e.blockNumber)).events =
      db.events ++ [⟨e.blockNumber, e.transactionHash, e.eventName,
        serializeArgs e.args, timestampFor env e.blockNumber, li⟩] :=
    insertEventRow_fresh db e li _ hanyfalse
  have he1 : db1.events = (insertEventRow db e li (timestampFor env e.blockNumber)).events :=
    processEventLog_events _ _ _ _ _ _ h1
  have hdb1ev : db1.events = db.events ++ [⟨e.blockNumber, e.transactionHash,
      e.eventName, serializeArgs e.args, timestampFor env e.blockNumber, li⟩] :=
    he1.trans hrow
  have hany1 : db1.events.any (fun r =>
      r.transactionHash == e.transactionHash && r.logIndex == li) = true := by
    rw [hdb1ev, List.any_append]
    simp
  rw [insertEventRow_dup db1 e li _ hany1] at h2
  have he2 : db2.events = db1.events := processEventLog_events _ _ _ _ _ _ h2
  refine ⟨he2, ?_, ?_⟩
  · rw [hdb1ev, List.filter_append, List.length_eq_zero.mp h0]
    simp
  · exact processEventLog_cells_idem env e (timestampFor env e.blockNumber)
      (insertEventRow db e li (timestampFor env e.blockNumber)) db1 db1 db2 l1 l2
      rfl h1 h2

/-- A concrete Buy event used to exercise double application. -/
def evC8 : RawEvent :=
  ⟨300, "0xc8", "Buy", some 2, .buyArgs "0xbuyer" (some 4) (some 5), [], []⟩

/-- The state after one application of `evC8` to the empty database. -/
def dbC8a : DB :=
  ⟨[⟨300, "0xc8", "Buy", serializeArgs (.buyArgs "0xbuyer" (some 4) (some 5)), 0, 2⟩],
   [⟨4, 5, "", "0xbuyer", 0, 0, 0⟩],
   [⟨4, 5, "0xbuyer", 0, "0xc8", 300⟩], [], [], []⟩

/-- The state after the second application of `evC8`. -/
def dbC8b : DB :=
  ⟨[⟨300, "0xc8", "Buy", serializeArgs (.buyArgs "0xbuyer" (some 4) (some 5)), 0, 2⟩],
   [⟨4, 5, "", "0xbuyer", 0, 0, 0⟩],
   [⟨4, 5, "0xbuyer", 0, "0xc8", 300⟩, ⟨4, 5, "0xbuyer", 0, "0xc8", 300⟩],
   [], [], []⟩

/-- Witness for C8: applying the Buy event `evC8` twice to the empty
database leaves the event row unique and the cell state unchanged. -/
theorem c8_witness :
    dbC8b.events = dbC8a.events ∧
    (dbC8a.events.filter (fun r =>
        r.transactionHash == evC8.transactionHash && r.logIndex == 2)).length = 1 ∧
    dbC8b.pixelBlocks = dbC8a.pixelBlocks :=
  c8_idempotent envStub evC8 DB.empty dbC8a dbC8b 2 [] [] rfl (by decide) rfl rfl

/-! ## C1: sub-range atomicity, failure logging and continuation -/

/-- C1: if processing any event of a fetched, nonempty sub-range raises an
exception, the whole sub-range's transaction is rolled back (the database
is exactly its pre-transaction state), the failure is logged with the
sub-range bounds and the first event's identifying metadata, and the
scanner continues with the remaining sub-ranges from the rolled-back state
— the failed sub-range is not retried within the invocation. -/
theorem c1_subrange_rollback (env : ChainEnv) (db : DB) (startB endB : Nat)
    (rest : List (Nat × Nat)) (events : List RawEvent) (msg : String)
    (hq : env.queryEvents startB endB = .ok events)
    (hne : events ≠ [])
    (hf : processEventsInTx env events db = .error msg) :
    processRange env db (startB, endB) =
      (db, [.errorBatchRolledBack startB endB msg (events.head?.map metaOfEvent)]) ∧
    processScan env db ((startB, endB) :: rest) =
      ((processScan env db rest).1,
        .errorBatchRolledBack startB endB msg (events.head?.map metaOfEvent) ::
          (processScan env db rest).2) := by
  have hpr : processRange env db (startB, endB) =
      (db, [.errorBatchRolledBack startB endB msg (events.head?.map metaOfEvent)]) := by
    cases events with
    | nil => exact absurd rfl hne
    | cons e es =>
      simp only [processRange, hq, processBatch, hf]
  refine ⟨hpr, ?_⟩
  simp only [processScan, hpr, List.singleton_append]

/-- An event whose `logIndex` is `undefined`: the batch loop throws on it. -/
def evC1bad : RawEvent :=
  ⟨500, "0xc1", "Weird", none, .unknownArgs "Weird", [], []⟩

/-- Scanner oracle returning the bad event for the range [7, 16] and
nothing elsewhere. -/
def envC1 : ChainEnv :=
  { envStub with queryEvents := fun s e =>
      if s == 7 && e == 16 then .ok [evC1bad] else .ok [] }

/-- Witness for C1: the failing range [7, 16] rolls back to the starting
database, logs the first event's metadata, and the scan continues with the
next range exactly once. -/
theorem c1_witness :
    processRange envC1 dbC8a (7, 16) =
      (dbC8a, [.errorBatchRolledBack 7 16 "logIndex is undefined for event"
        (some (metaOfEvent evC1bad))]) ∧
    processScan envC1 dbC8a [(7, 16), (17, 26)] =
      ((processScan envC1 dbC8a [(17, 26)]).1,
        .errorBatchRolledBack 7 16 "logIndex is undefined for event"
          (some (metaOfEvent evC1bad)) :: (processScan envC1 dbC8a [(17, 26)]).2) :=
  c1_subrange_rollback envC1 dbC8a 7 16 [(17, 26)] [evC1bad]
    "logIndex is undefined for event" rfl (by simp) rfl

end MoonPixelMap
